import Mathlib

/-!
Verification of the CypherPoker.JS `CypherPokerAnalyzer` class
(docs/demo/web/scripts/CypherPokerAnalyzer.js).

The JavaScript code is shallowly embedded: arrays become `List`s, JS objects
used as string-keyed maps become association lists (`List (Nat × _)`) whose
order models JS insertion order (or ascending numeric-key order where the JS
engine enumerates integer-like keys numerically), numeric card-value strings
become `Nat`, mutation becomes explicit state passing, and `throw` becomes
`Except.error`.  The external commutative-crypto service (`encrypt` /
`decrypt`) is passed as a function parameter.  All definitions are computable.
-/

set_option maxHeartbeats 1600000

namespace CypherPokerAnalyzer

/-! ## Multiset utilities: `compareDecks` and `removeFromDeck` (source 1242-1297) -/

/-- One step of the inner `while` loop of `compareDecks`: remove from the list
the first element equal to `x` (JS `deck2.splice(index, 1)` followed by
`break`). -/
def removeFirst {α : Type} [DecidableEq α] (x : α) : List α → List α
  | [] => []
  | y :: rest => if y = x then rest else y :: removeFirst x rest

/-- The outer `while (deck1.length > 0)` loop of `compareDecks`: shift the head
of `deck1` and delete its first match (if any) from `deck2`; succeed when
`deck2` ends empty. -/
def compareLoop {α : Type} [DecidableEq α] : List α → List α → Bool
  | [], deck2 => deck2.isEmpty
  | c :: rest, deck2 => compareLoop rest (removeFirst c deck2)

/-- Embedding of `CypherPokerAnalyzer.compareDecks(deck1Arr, deck2Arr)`
(source lines 1274-1297): length check, then a destructive first-match
cancellation loop over copies of both arrays; true iff the copy of the second
deck ends empty.  (The JS `compareCard == currentCard` compares a scalar with
the one-element array returned by `splice`, which coerces to elementwise
comparison for the string/number card values used here.) -/
def compareDecks {α : Type} [DecidableEq α] (deck1Arr deck2Arr : List α) : Bool :=
  if deck1Arr.length ≠ deck2Arr.length then false
  else compareLoop deck1Arr deck2Arr

/-- One pass of the inner `while` loop of `removeFromDeck` for a single item:
returns the deck with every occurrence of `x` spliced out together with the
number of occurrences removed (the JS loop keeps scanning after a match "in
case there are duplicates"). -/
def removeMatching {α : Type} [DecidableEq α] (x : α) : List α → List α × Nat
  | [] => ([], 0)
  | y :: rest =>
    let r := removeMatching x rest
    if y = x then (r.1, r.2 + 1) else (y :: r.1, r.2)

/-- One step of the outer `for` loop of `removeFromDeck`: process one entry of
`removeItems`, extending the running deck/removed-count state. -/
def rfdStep {α : Type} [DecidableEq α] (acc : List α × Nat) (item : α) :
    List α × Nat :=
  let r := removeMatching item acc.1
  (r.1, acc.2 + r.2)

/-- The `for` loop of `removeFromDeck` threading the mutated deck and the
`removedItems` count through every entry of `removeItems`. -/
def removeFromDeckLoop {α : Type} [DecidableEq α] (removeItems : List α)
    (deckArr : List α) : List α × Nat :=
  removeItems.foldl rfdStep (deckArr, 0)

/-- Embedding of `CypherPokerAnalyzer.removeFromDeck(removeItems, deckArr)`
(source lines 1242-1260).  The JS function mutates `deckArr` in place and
returns a boolean; here the final deck is returned alongside: result
`.1` is the returned boolean (`removedItems.length == itemsToRemove`) and
`.2` is the state of `deckArr` after the call. -/
def removeFromDeck {α : Type} [DecidableEq α] (removeItems deckArr : List α) :
    Bool × List α :=
  let r := removeFromDeckLoop removeItems deckArr
  (r.2 == removeItems.length, r.1)

/-! ## Cards (CypherPokerCard: `mapping`, `suit`, `value`, `highvalue`) -/

/-- A CypherPokerCard as used by the analyzer.  `mapping` is the plaintext
residue (a numeric string in JS), `suit` an enum (a string in JS), `value`
the low weight (ace = 1) and `highvalue` the high weight (ace = 14). -/
structure Card where
  mapping : Nat
  suit : Nat
  value : Nat
  highvalue : Nat
deriving DecidableEq

instance : Inhabited Card := ⟨⟨0, 0, 0, 0⟩⟩

/-- The high weight a standard deck assigns to a rank: aces get 14, every
other rank keeps its value. -/
def hv (v : Nat) : Nat := if v = 1 then 14 else v

/-- A card of a standard 52-card deck: rank between 1 and 13, `highvalue`
consistent with the rank, one of four suits. -/
def WFCard (c : Card) : Prop :=
  1 ≤ c.value ∧ c.value ≤ 13 ∧ c.highvalue = hv c.value ∧ c.suit < 4

/-- Two different physical cards of one deck differ in rank or suit. -/
def cardDistinct (a b : Card) : Prop := a.value ≠ b.value ∨ a.suit ≠ b.suit

/-- A real 5-card hand: five pairwise-distinct cards of a standard deck. -/
def WFHand (h : List Card) : Prop :=
  h.length = 5 ∧ (∀ c ∈ h, WFCard c) ∧ h.Pairwise cardDistinct

/-- The rank multiset of a hand (JS `valuesArr`). -/
def valuesOf (h : List Card) : List Nat := h.map Card.value

/-! ## `straightType` (source lines 1146-1163) -/

/-- Embedding of `CypherPokerAnalyzer.straightType(cardValues)`: with fewer
than 5 values return 0; otherwise compare (order-insensitively) against the
windows 1..5 through 9..13, then the ace-high window 10,11,12,13,1; return
the low value of the first matching window, else 0. -/
def straightType (cardValues : List Nat) : Nat :=
  if cardValues.length < 5 then 0
  else if compareDecks cardValues [1, 2, 3, 4, 5] then 1
  else if compareDecks cardValues [2, 3, 4, 5, 6] then 2
  else if compareDecks cardValues [3, 4, 5, 6, 7] then 3
  else if compareDecks cardValues [4, 5, 6, 7, 8] then 4
  else if compareDecks cardValues [5, 6, 7, 8, 9] then 5
  else if compareDecks cardValues [6, 7, 8, 9, 10] then 6
  else if compareDecks cardValues [7, 8, 9, 10, 11] then 7
  else if compareDecks cardValues [8, 9, 10, 11, 12] then 8
  else if compareDecks cardValues [9, 10, 11, 12, 13] then 9
  else if compareDecks cardValues [10, 11, 12, 13, 1] then 10
  else 0

/-! ## `scoreHand` (source lines 997-1132) -/

/-- Embedding of `CypherPokerAnalyzer.getCardSum(cards, high)` (source lines
1174-1184). -/
def getCardSum (cards : List Card) (high : Bool) : Nat :=
  cards.foldl (fun sum c => sum + (if high then c.highvalue else c.value)) 0

/-- The distinct rank values of a hand in ascending order.  This models the
key set of the JS `valueGroups` object: its keys are the numeric `value`
strings, which JS engines enumerate for `Object.entries` in ascending numeric
order. -/
def distinctValuesAsc (h : List Card) : List Nat :=
  List.insertionSort (fun a b : Nat => a ≤ b) ((h.map Card.value).dedup)

/-- The groups of the JS `valueGroups` object after `Object.entries`: for each
distinct rank (ascending) the cards of that rank in hand order.  Only the
group lists are kept (`valueGroups[i][1]` in JS). -/
def valueGroups (h : List Card) : List (List Card) :=
  (distinctValuesAsc h).map (fun v => h.filter (fun c => c.value == v))

/-- The number of entries of the JS `suitGroups` object, i.e. the number of
distinct suits in the hand. -/
def numSuits (h : List Card) : Nat := ((h.map Card.suit).dedup).length

/-- `valueGroups[i][1].length` with JS out-of-range access modelled by an
empty group (every use in the source is guarded by a `valueGroups.length`
test). -/
def groupLenAt (gs : List (List Card)) (i : Nat) : Nat := (gs.getD i []).length

/-- The kicker-adjustment loop of `scoreHand`: for every value group whose
size is not `keep`, `valueAdjust` is ASSIGNED (not accumulated)
`cardSum * valueMultiplier * -1 + cardSum`, so the final value comes from the
last such group. -/
def kickerAdjust (gs : List (List Card)) (keep : Nat) (mult : Nat) : Int :=
  gs.foldl
    (fun adj g =>
      if g.length ≠ keep then
        ((getCardSum g true : Int)) * (mult : Int) * (-1) + ((getCardSum g true : Int))
      else adj) 0

/-- The flush test of `scoreHand`: exactly one suit group and exactly 5
cards. -/
def handFlush (h : List Card) : Bool := numSuits h == 1 && h.length == 5

/-- The classification chain of `scoreHand` (source lines 1044-1113),
returning `(valueMultiplier, valueAdjust, acesHigh)`. -/
def scoreParams (h : List Card) : Nat × Int × Bool :=
  let vGroups := valueGroups h
  let flush := handFlush h
  let straightVal := straightType (h.map Card.value)
  let straight := decide (0 < straightVal)
  let royalflush := straightVal == 10 && flush
  if royalflush then (1000000000, 0, true)
  else if straight && flush then (100000000, 0, straightVal != 1)
  else if vGroups.length == 2 && decide (5 ≤ h.length) then
    let mult4 : Nat × Int :=
      if groupLenAt vGroups 0 == 4 || groupLenAt vGroups 1 == 4 then
        (10000000, kickerAdjust vGroups 4 10000000)
      else (1, 0)
    if groupLenAt vGroups 0 == 3 || groupLenAt vGroups 1 == 3 then
      (1000000, mult4.2, true)
    else (mult4.1, mult4.2, true)
  else if flush && !straight then (100000, 0, true)
  else if straight && !flush then (10000, 0, straightVal != 1)
  else if vGroups.length == 3 then
    if groupLenAt vGroups 0 == 3 || groupLenAt vGroups 1 == 3 || groupLenAt vGroups 2 == 3 then
      (1000, kickerAdjust vGroups 3 1000, true)
    else (100, kickerAdjust vGroups 2 100, true)
  else if vGroups.length == 4 || vGroups.length == 1 then
    (15, kickerAdjust vGroups 2 15, true)
  else (1, 0, true)

/-- The `handValue` computation of `scoreHand` (source lines 1114-1130):
for a multiplier above 1, the sum of `highvalue` (or of `value` when aces are
low); otherwise the maximum `highvalue`. -/
def handValueCalc (h : List Card) (mult : Nat) (acesHigh : Bool) : Int :=
  if 1 < mult then
    h.foldl (fun acc c => acc + (if acesHigh then (c.highvalue : Int) else (c.value : Int))) 0
  else
    ((h.foldl (fun m c => max m c.highvalue) 0 : Nat) : Int)

/-- Embedding of `CypherPokerAnalyzer.scoreHand(handObj)`: the final score
`handValue * valueMultiplier + valueAdjust` written to `handObj.score`. -/
def scoreHand (h : List Card) : Int :=
  let p := scoreParams h
  handValueCalc h p.1 p.2.2 * (p.1 : Int) + p.2.1

/-! ## Poker rank classes over real 5-card hands -/

/-- All cards share the first card's suit. -/
def IsFlushHand (h : List Card) : Prop :=
  ∀ c ∈ h, c.suit = (h.headD default).suit

/-- Flush whose ranks are ten through ace. -/
def IsRoyalFlush (h : List Card) : Prop :=
  IsFlushHand h ∧ (valuesOf h).Perm [10, 11, 12, 13, 1]

/-- Flush whose ranks form one of the windows 1-5 .. 9-13 (not ace-high). -/
def IsStraightFlush (h : List Card) : Prop :=
  IsFlushHand h ∧
    ∃ s ∈ List.range 10, 1 ≤ s ∧ s ≤ 9 ∧ (valuesOf h).Perm [s, s+1, s+2, s+3, s+4]

/-- Four cards of one rank plus a kicker of another rank. -/
def IsFourOfAKind (h : List Card) : Prop :=
  ∃ a ∈ valuesOf h, ∃ k ∈ valuesOf h, a ≠ k ∧ (valuesOf h).Perm [a, a, a, a, k]

/-- Three cards of one rank and two of another. -/
def IsFullHouse (h : List Card) : Prop :=
  ∃ a ∈ valuesOf h, ∃ b ∈ valuesOf h, a ≠ b ∧ (valuesOf h).Perm [a, a, a, b, b]

/-- Flush that is not any straight. -/
def IsFlushOnly (h : List Card) : Prop :=
  IsFlushHand h ∧ straightType (valuesOf h) = 0

/-- Straight (including ace-high) that is not a flush. -/
def IsStraightOnly (h : List Card) : Prop :=
  ¬ IsFlushHand h ∧ 0 < straightType (valuesOf h)

/-- Three cards of one rank plus two kickers of distinct other ranks. -/
def IsThreeOfAKind (h : List Card) : Prop :=
  ∃ a ∈ valuesOf h, ∃ k1 ∈ valuesOf h, ∃ k2 ∈ valuesOf h,
    a ≠ k1 ∧ a ≠ k2 ∧ k1 ≠ k2 ∧ (valuesOf h).Perm [a, a, a, k1, k2]

/-- Two pairs of distinct ranks plus a kicker of a third rank. -/
def IsTwoPair (h : List Card) : Prop :=
  ∃ a ∈ valuesOf h, ∃ b ∈ valuesOf h, ∃ c ∈ valuesOf h,
    a ≠ b ∧ a ≠ c ∧ b ≠ c ∧ (valuesOf h).Perm [a, a, b, b, c]

/-- One pair plus three kickers, all four ranks distinct. -/
def IsOnePair (h : List Card) : Prop :=
  ∃ a ∈ valuesOf h, ∃ k1 ∈ valuesOf h, ∃ k2 ∈ valuesOf h, ∃ k3 ∈ valuesOf h,
    a ≠ k1 ∧ a ≠ k2 ∧ a ≠ k3 ∧ k1 ≠ k2 ∧ k1 ≠ k3 ∧ k2 ≠ k3 ∧
    (valuesOf h).Perm [a, a, k1, k2, k3]

/-- Five distinct ranks, no straight, no flush. -/
def IsHighCard (h : List Card) : Prop :=
  (valuesOf h).Nodup ∧ straightType (valuesOf h) = 0 ∧ ¬ IsFlushHand h

/-- The rank-class table of the specification, indexed from 0 (High Card) up
to 9 (Royal Flush). -/
def RankClassPred : Nat → List Card → Prop
  | 0, h => IsHighCard h
  | 1, h => IsOnePair h
  | 2, h => IsTwoPair h
  | 3, h => IsThreeOfAKind h
  | 4, h => IsStraightOnly h
  | 5, h => IsFlushOnly h
  | 6, h => IsFullHouse h
  | 7, h => IsFourOfAKind h
  | 8, h => IsStraightFlush h
  | 9, h => IsRoyalFlush h
  | _ + 10, _ => False

instance : DecidableRel cardDistinct := fun a b => by
  unfold cardDistinct
  infer_instance

instance (h : List Card) : Decidable (WFHand h) := by
  unfold WFHand WFCard
  infer_instance

instance (h : List Card) : Decidable (IsFlushHand h) := by
  unfold IsFlushHand
  infer_instance

instance (h : List Card) : Decidable (IsRoyalFlush h) := by
  unfold IsRoyalFlush
  infer_instance

instance (h : List Card) : Decidable (IsStraightFlush h) := by
  unfold IsStraightFlush
  infer_instance

instance (h : List Card) : Decidable (IsFourOfAKind h) := by
  unfold IsFourOfAKind
  infer_instance

instance (h : List Card) : Decidable (IsFullHouse h) := by
  unfold IsFullHouse
  infer_instance

instance (h : List Card) : Decidable (IsFlushOnly h) := by
  unfold IsFlushOnly
  infer_instance

instance (h : List Card) : Decidable (IsStraightOnly h) := by
  unfold IsStraightOnly
  infer_instance

instance (h : List Card) : Decidable (IsThreeOfAKind h) := by
  unfold IsThreeOfAKind
  infer_instance

instance (h : List Card) : Decidable (IsTwoPair h) := by
  unfold IsTwoPair
  infer_instance

instance (h : List Card) : Decidable (IsOnePair h) := by
  unfold IsOnePair
  infer_instance

instance (h : List Card) : Decidable (IsHighCard h) := by
  unfold IsHighCard
  infer_instance

instance (n : Nat) (h : List Card) : Decidable (RankClassPred n h) :=
  match n with
  | 0 => inferInstanceAs (Decidable (IsHighCard h))
  | 1 => inferInstanceAs (Decidable (IsOnePair h))
  | 2 => inferInstanceAs (Decidable (IsTwoPair h))
  | 3 => inferInstanceAs (Decidable (IsThreeOfAKind h))
  | 4 => inferInstanceAs (Decidable (IsStraightOnly h))
  | 5 => inferInstanceAs (Decidable (IsFlushOnly h))
  | 6 => inferInstanceAs (Decidable (IsFullHouse h))
  | 7 => inferInstanceAs (Decidable (IsFourOfAKind h))
  | 8 => inferInstanceAs (Decidable (IsStraightFlush h))
  | 9 => inferInstanceAs (Decidable (IsRoyalFlush h))
  | _ + 10 => inferInstanceAs (Decidable False)

/-- Lower bound of the scores `scoreHand` can assign within each rank class
(over well-formed 5-card hands). -/
def classLB : Nat → Int
  | 0 => 2
  | 1 => 137
  | 2 => 1002
  | 3 => 8002
  | 4 => 150000
  | 5 => 1000000
  | 6 => 10000000
  | 7 => 80000002
  | 8 => 1500000000
  | 9 => 60000000000
  | _ + 10 => 0

/-- Upper bound of the scores `scoreHand` can assign within each rank class
(over well-formed 5-card hands). -/
def classUB : Nat → Int
  | 0 => 14
  | 1 => 977
  | 2 => 5414
  | 3 => 56014
  | 4 => 600000
  | 5 => 7000000
  | 6 => 70000000
  | 7 => 560000014
  | 8 => 5500000000
  | 9 => 60000000000
  | _ + 10 => 0

/-- A concrete low-ace straight A-2-3-4-5 (mixed suits, so not a flush). -/
def lowAceStraightHand : List Card :=
  [⟨0, 0, 1, 14⟩, ⟨0, 1, 2, 2⟩, ⟨0, 0, 3, 3⟩, ⟨0, 0, 4, 4⟩, ⟨0, 0, 5, 5⟩]

/-- A concrete straight 2-3-4-5-6 (mixed suits, so not a flush). -/
def sixHighStraightHand : List Card :=
  [⟨0, 1, 2, 2⟩, ⟨0, 0, 3, 3⟩, ⟨0, 0, 4, 4⟩, ⟨0, 0, 5, 5⟩, ⟨0, 0, 6, 6⟩]

/-! ## `createCardPermutations` (source lines 837-880) -/

/-- Embedding of `CypherPokerAnalyzer.createCardPermutations(cardsArr)`:
up to 5 cards give the single hand; 6 cards give the 6 JS-listed 5-card
selections; otherwise the 21 JS-listed selections over indices 0..6. -/
def createCardPermutations (cardsArr : List Card) : List (List Card) :=
  let c := fun i => cardsArr.getD i default
  if cardsArr.length ≤ 5 then [cardsArr]
  else if cardsArr.length == 6 then
    [[c 1, c 2, c 3, c 4, c 5],
     [c 0, c 2, c 3, c 4, c 5],
     [c 1, c 0, c 3, c 4, c 5],
     [c 1, c 2, c 0, c 4, c 5],
     [c 1, c 2, c 3, c 0, c 5],
     [c 1, c 2, c 3, c 4, c 0]]
  else
    [[c 2, c 3, c 4, c 5, c 6],
     [c 0, c 3, c 4, c 5, c 6],
     [c 2, c 0, c 4, c 5, c 6],
     [c 2, c 3, c 0, c 5, c 6],
     [c 2, c 3, c 4, c 0, c 6],
     [c 2, c 3, c 4, c 5, c 0],
     [c 1, c 3, c 4, c 5, c 6],
     [c 2, c 1, c 4, c 5, c 6],
     [c 2, c 3, c 1, c 5, c 6],
     [c 2, c 3, c 4, c 1, c 6],
     [c 2, c 3, c 4, c 5, c 1],
     [c 0, c 1, c 4, c 5, c 6],
     [c 0, c 3, c 1, c 5, c 6],
     [c 0, c 3, c 4, c 1, c 6],
     [c 0, c 3, c 4, c 5, c 1],
     [c 2, c 0, c 1, c 5, c 6],
     [c 2, c 0, c 4, c 1, c 6],
     [c 2, c 0, c 4, c 5, c 1],
     [c 2, c 3, c 0, c 1, c 6],
     [c 2, c 3, c 0, c 5, c 1],
     [c 2, c 3, c 4, c 0, c 1]]

/-! ## `scoreHands` (source lines 891-982) -/

/-- The analyzer's view of a player: private ID and folded flag.  JS compares
winner entries by object identity; the analyzer materialises one player object
per private ID (`getPlayer` returns the first roster match), so record
equality is faithful. -/
structure AnPlayer where
  privateID : Nat
  hasFolded : Bool
deriving DecidableEq

/-- Embedding of `CypherPokerAnalyzer.getPlayer(privateID)` (source lines
325-332): first roster entry with the given private ID. -/
def getPlayer (roster : List AnPlayer) (pid : Nat) : Option AnPlayer :=
  roster.find? (fun p => p.privateID == pid)

/-- A JS `handObj`: the 5-card permutation and its score. -/
structure HandObj where
  hand : List Card
  score : Int
deriving DecidableEq

/-- The best-score scan state of `scoreHands`: `highestScore`,
`winningPlayers`, `winningHands`. -/
structure ScanState where
  highestScore : Int
  winningPlayers : List AnPlayer
  winningHands : List HandObj
deriving DecidableEq

/-- One iteration of the permutation loop of `scoreHands` (source lines
907-925): equal score appends a potential split-pot winner, greater score
restarts the winner lists. -/
def scanStep (player : AnPlayer) (st : ScanState) (hObj : HandObj) : ScanState :=
  if hObj.score == st.highestScore then
    { st with winningPlayers := st.winningPlayers ++ [player],
              winningHands := st.winningHands ++ [hObj] }
  else if st.highestScore < hObj.score then
    { highestScore := hObj.score, winningPlayers := [player], winningHands := [hObj] }
  else st

/-- The scored permutation list of one player (`cardsObj.hands[privateID]`). -/
def playerHandObjs (priv : List Card) (pub : List Card) : List HandObj :=
  (createCardPermutations (priv ++ pub)).map (fun perm => { hand := perm, score := scoreHand perm })

/-- One iteration of the player loop of `scoreHands` (source lines 899-928):
skip unknown or folded players, otherwise score all permutations of hole plus
community cards and scan them. -/
def phase1Step (roster : List AnPlayer) (pub : List Card)
    (acc : List (Nat × List HandObj) × ScanState) (entry : Nat × List Card) :
    List (Nat × List HandObj) × ScanState :=
  match getPlayer roster entry.1 with
  | none => acc
  | some player =>
    if player.hasFolded then acc
    else
      let hObjs := playerHandObjs entry.2 pub
      (acc.1 ++ [(entry.1, hObjs)], hObjs.foldl (scanStep player) acc.2)

/-- The first phase of `scoreHands`: the scan over all non-folded players,
starting from `highestScore = -1`. -/
def phase1 (roster : List AnPlayer) (playersObj : List (Nat × List Card)) (pub : List Card) :
    List (Nat × List HandObj) × ScanState :=
  playersObj.foldl (phase1Step roster pub) ([], ⟨-1, [], []⟩)

/-- Lookup of `analysis.private[playerPID]` (same object as
`cardsObj.private`). -/
def lookupPriv (playersObj : List (Nat × List Card)) (pid : Nat) : List Card :=
  ((playersObj.find? (fun e => e.1 == pid)).map Prod.snd).getD []

/-- The hole-card tie-break of `scoreHands` (source lines 939-946):
`max(high1, high2) * 10 + min(high1, high2)` over the two private cards. -/
def holeTiebreak (playersObj : List (Nat × List Card)) (pid : Nat) : Int :=
  let priv := lookupPriv playersObj pid
  let c1 := priv.getD 0 default
  let c2 := priv.getD 1 default
  if c2.highvalue < c1.highvalue then ((c1.highvalue * 10 + c2.highvalue : Nat) : Int)
  else ((c2.highvalue * 10 + c1.highvalue : Nat) : Int)

/-- One iteration of the split-pot tie-break loop (source lines 934-958):
the candidate's score is overwritten with the hole-card tie-break and
re-maxed starting from `highestScore = 0`. -/
def tieStep (playersObj : List (Nat × List Card)) (st : ScanState)
    (pw : AnPlayer × HandObj) : ScanState :=
  let currentScore := holeTiebreak playersObj pw.1.privateID
  let wh : HandObj := { pw.2 with score := currentScore }
  if st.highestScore < currentScore then
    { highestScore := currentScore, winningPlayers := [pw.1], winningHands := [wh] }
  else if currentScore == st.highestScore then
    { st with winningPlayers := st.winningPlayers ++ [pw.1],
              winningHands := st.winningHands ++ [wh] }
  else st

/-- The tie-break phase of `scoreHands` (source lines 929-962): only run when
more than one candidate remains. -/
def phase2 (playersObj : List (Nat × List Card)) (wp : List AnPlayer)
    (wh : List HandObj) : List AnPlayer × List HandObj :=
  if 1 < wp.length then
    let st := (wp.zip wh).foldl (tieStep playersObj) ⟨0, [], []⟩
    (st.winningPlayers, st.winningHands)
  else (wp, wh)

/-- One iteration of the winner de-duplication loop (source lines 963-976):
keep a winner only when not already present. -/
def dedupStep (acc : List AnPlayer × List HandObj) (pw : AnPlayer × HandObj) :
    List AnPlayer × List HandObj :=
  if (acc.1.find? (fun w => decide (w = pw.1))).isSome then acc
  else (acc.1 ++ [pw.1], acc.2 ++ [pw.2])

/-- The de-duplication phase of `scoreHands`. -/
def dedupWinners (wp : List AnPlayer) (wh : List HandObj) :
    List AnPlayer × List HandObj :=
  (wp.zip wh).foldl dedupStep ([], [])

/-- The result of `scoreHands`: the per-player scored permutations and the
final `winningPlayers` / `winningHands`. -/
structure ScoreResult where
  hands : List (Nat × List HandObj)
  winningPlayers : List AnPlayer
  winningHands : List HandObj
deriving DecidableEq

/-- Embedding of `CypherPokerAnalyzer.scoreHands(cardsObj)`: best-score scan,
conditional hole-card tie-break, winner de-duplication. -/
def scoreHands (roster : List AnPlayer) (playersObj : List (Nat × List Card))
    (pub : List Card) : ScoreResult :=
  let p1 := phase1 roster playersObj pub
  let p2 := phase2 playersObj p1.2.winningPlayers p1.2.winningHands
  let d := dedupWinners p2.1 p2.2
  { hands := p1.1, winningPlayers := d.1, winningHands := d.2 }

/-! ## `analyzeCards` (source lines 659-823) -/

/-- One element of the analyzer's `deck` array: who produced the snapshot and
its card values. -/
structure DeckSnap where
  fromPID : Nat
  cards : List Nat
deriving DecidableEq

instance : Inhabited DeckSnap := ⟨⟨0, []⟩⟩

/-- The thrown analysis errors of `analyzeCards`, with the data interpolated
into the JS error messages. -/
inductive AnalyzeError where
  | deckMismatch (stage : Nat) (offender : Nat)
  | multiSelect (dealer : Nat)
  | selectDuplicate (dealIndex : Nat) (offender : Nat) (dealer : Nat)
  | nonMapping (dealIndex : Nat) (offender : Nat) (dealer : Nat) (value : Nat)
  | decryptMismatch (round : Nat) (offender : Nat) (dealer : Nat)
deriving DecidableEq

/-- The numeric `code` property attached to each thrown error: 1 for a deck
encryption mismatch (source line 684), 2 for every deal-verification error
(source lines 724, 731, 753, 766, 786, 813). -/
def AnalyzeError.code : AnalyzeError → Nat
  | .deckMismatch _ _ => 1
  | _ => 2

/-- `this.keychains[pid][keychain.length - 1]`: the last keypair of the
keychain stored for a player (keypairs are opaque to the analyzer and modelled
as `Nat`). -/
def keypairOf (keychains : List (Nat × List Nat)) (pid : Nat) : Nat :=
  ((((keychains.find? (fun e => e.1 == pid))).map Prod.snd).getD []).getLastD 0

/-- The deck-verification loop of `analyzeCards` (source lines 670-690):
starting from the plaintext snapshot, re-encrypt the previous deck under the
last keypair of the snapshot sender and compare order-insensitively; the first
mismatch at stage `count` throws the code-1 error naming the stage and the
sender. -/
def verifyDeckLoop (encrypt : Nat → Nat → Nat) (keychains : List (Nat × List Nat)) :
    Nat → List Nat → List DeckSnap → Except AnalyzeError (List Nat)
  | _, prev, [] => .ok prev
  | stage, prev, snap :: rest =>
    let kp := keypairOf keychains snap.fromPID
    let compareDeckL := prev.map (fun v => encrypt v kp)
    if compareDecks snap.cards compareDeckL = false then
      .error (.deckMismatch stage snap.fromPID)
    else
      verifyDeckLoop encrypt keychains (stage + 1) snap.cards rest

/-- The stage check at snapshot index `j` (counting the plaintext snapshot as
index 0): snapshot `j` equals, as a multiset, the re-encryption of snapshot
`j-1` under the last keypair of snapshot `j`'s sender. -/
def stageCheck (encrypt : Nat → Nat → Nat) (keychains : List (Nat × List Nat))
    (deck : List DeckSnap) (j : Nat) : Bool :=
  compareDecks (deck.getD j default).cards
    (((deck.getD (j - 1) default).cards).map
      (fun v => encrypt v (keypairOf keychains (deck.getD j default).fromPID)))

/-- The same check relative to the tail of the deck list: `restCheck prev rest
j` is the stage check at the `j`-th snapshot of `rest`, where the predecessor
of `rest[0]` has cards `prev`. -/
def restCheck (encrypt : Nat → Nat → Nat) (keychains : List (Nat × List Nat))
    (prev : List Nat) (rest : List DeckSnap) (j : Nat) : Bool :=
  compareDecks (rest.getD j default).cards
    ((if j = 0 then prev else (rest.getD (j - 1) default).cards).map
      (fun v => encrypt v (keypairOf keychains (rest.getD j default).fromPID)))

/-- A deal-history entry (`this.deals[pid][i]`). -/
inductive DealType where
  | select
  | decrypt
deriving DecidableEq

/-- One deal record: sender, `"select"`/`"decrypt"` type, the `private` flag
(named `priv` because `private` is reserved in Lean), and the card values. -/
structure DealEntry where
  fromPID : Nat
  type : DealType
  priv : Bool
  cards : List Nat
deriving DecidableEq

/-- The object assembled by `analyzeCards`: `private` per-player verified
cards (insertion-ordered by player) and the `public` community cards. -/
structure CardsObj where
  priv : List (Nat × List Card)
  pub : List Card
deriving DecidableEq

/-- `if (cardsObj.private[sourcePID] == undefined) cardsObj.private[sourcePID]
= new Array()` (source lines 717-719). -/
def ensurePrivKey (co : CardsObj) (pid : Nat) : CardsObj :=
  if (co.priv.find? (fun e => e.1 == pid)).isSome then co
  else { co with priv := co.priv ++ [(pid, [])] }

/-- Append cards to the named entry of `cardsObj.private`. -/
def assocAppend (m : List (Nat × List Card)) (pid : Nat) (cs : List Card) :
    List (Nat × List Card) :=
  m.map (fun e => if e.1 == pid then (e.1, e.2 ++ cs) else e)

/-- Push resolved cards to `cardsObj.private[pid]` or `cardsObj.public`. -/
def pushCards (co : CardsObj) (pid : Nat) (isPriv : Bool) (cs : List Card) : CardsObj :=
  if isPriv then { co with priv := assocAppend co.priv pid cs }
  else { co with pub := co.pub ++ cs }

/-- Embedding of `CypherPokerAnalyzer.getMappedCard(mapping)` (source lines
432-439): first card of the mapped deck with the given mapping. -/
def getMappedCard (mappedDeck : List Card) (mapping : Nat) : Option Card :=
  mappedDeck.find? (fun c => c.mapping == mapping)

/-- Resolve a batch of decrypted values through the card registry; the first
value that does not map is the error (the JS loop throws at the first `null`,
discarding the partially pushed cards together with the whole analysis). -/
def mapAllCards (mappedDeck : List Card) : List Nat → Except Nat (List Card)
  | [] => .ok []
  | v :: rest =>
    match getMappedCard mappedDeck v with
    | none => .error v
    | some c =>
      match mapAllCards mappedDeck rest with
      | .error w => .error w
      | .ok cs => .ok (c :: cs)

/-- The inner deal-verification loop of `analyzeCards` (source lines 699-820)
for one dealing player `sourcePID`, walking the deal list with the
`(previousType, type)` state machine.  `total` is `dealArray.length`, `count`
the current index, `prev` the previous entry (none at index 0, where
`previousType` is initialised to `"select"`). -/
def processDealLoop (decrypt : Nat → Nat → Nat) (keychains : List (Nat × List Nat))
    (mappedDeck : List Card) (sourcePID : Nat) (total : Nat) :
    List DealEntry → Nat → Option DealEntry → CardsObj → List Nat →
      Except AnalyzeError (CardsObj × List Nat)
  | [], _, _, co, deck => .ok (co, deck)
  | cur :: rest, count, prev, co, deck =>
    let co := ensurePrivKey co sourcePID
    let pType : DealType := match prev with
      | none => .select
      | some p => p.type
    let pCards : List Nat := match prev with
      | none => []
      | some p => p.cards
    let pPriv : Bool := match prev with
      | none => false
      | some p => p.priv
    if pType = .select ∧ cur.type = .select then
      if 0 < count then .error (.multiSelect sourcePID)
      else
        let r := removeFromDeck cur.cards deck
        if r.1 = false then .error (.selectDuplicate count cur.fromPID sourcePID)
        else processDealLoop decrypt keychains mappedDeck sourcePID total rest
          (count + 1) (some cur) co r.2
    else if pType = .select ∧ cur.type = .decrypt ∧ count < total - 1 then
      -- `decrypting = true`: a decryption chain begins, no other effect
      processDealLoop decrypt keychains mappedDeck sourcePID total rest
        (count + 1) (some cur) co deck
    else if pType = .decrypt ∧ cur.type = .select then
      let kp := keypairOf keychains sourcePID
      let results := pCards.map (fun v => decrypt v kp)
      match mapAllCards mappedDeck results with
      | .error w => .error (.nonMapping count cur.fromPID sourcePID w)
      | .ok cs =>
        let co := pushCards co sourcePID pPriv cs
        let r := removeFromDeck cur.cards deck
        if r.1 = false then .error (.selectDuplicate count cur.fromPID sourcePID)
        else processDealLoop decrypt keychains mappedDeck sourcePID total rest
          (count + 1) (some cur) co r.2
    else
      if count = total - 1 then
        let kp := keypairOf keychains sourcePID
        let results := cur.cards.map (fun v => decrypt v kp)
        match mapAllCards mappedDeck results with
        | .error w => .error (.nonMapping count cur.fromPID sourcePID w)
        | .ok cs =>
          processDealLoop decrypt keychains mappedDeck sourcePID total rest
            (count + 1) (some cur) (pushCards co sourcePID cur.priv cs) deck
      else
        let kp := keypairOf keychains cur.fromPID
        let compareDeckL := pCards.map (fun v => decrypt v kp)
        if compareDecks compareDeckL cur.cards = false then
          .error (.decryptMismatch count cur.fromPID sourcePID)
        else processDealLoop decrypt keychains mappedDeck sourcePID total rest
          (count + 1) (some cur) co deck

/-- The outer `for (var privateID in this.deals)` loop of step 2 of
`analyzeCards`. -/
def processAllDeals (decrypt : Nat → Nat → Nat) (keychains : List (Nat × List Nat))
    (mappedDeck : List Card) :
    List (Nat × List DealEntry) → CardsObj → List Nat →
      Except AnalyzeError (CardsObj × List Nat)
  | [], co, deck => .ok (co, deck)
  | (pid, dealArray) :: rest, co, deck =>
    match processDealLoop decrypt keychains mappedDeck pid dealArray.length
        dealArray 0 none co deck with
    | .error e => .error e
    | .ok r => processAllDeals decrypt keychains mappedDeck rest r.1 r.2

/-- Embedding of `CypherPokerAnalyzer.analyzeCards()`: resolve `null` (here
`Option.none`) when no deck snapshots were captured; otherwise verify the
encryption chain (step 1), then every deal (step 2), producing the verified
`cardsObj`; any failure is the thrown coded error. -/
def analyzeCards (encrypt decrypt : Nat → Nat → Nat)
    (keychains : List (Nat × List Nat)) (mappedDeck : List Card)
    (deck : List DeckSnap) (deals : List (Nat × List DealEntry)) :
    Except AnalyzeError (Option CardsObj) :=
  match deck with
  | [] => .ok none
  | d0 :: rest =>
    match verifyDeckLoop encrypt keychains 1 d0.cards rest with
    | .error e => .error e
    | .ok encryptedDeck =>
      match processAllDeals decrypt keychains mappedDeck deals ⟨[], []⟩ encryptedDeck with
      | .error e => .error e
      | .ok r => .ok (some r.1)

/-- The `error` / `complete` fields of `this._analysis` as left by
`analyzeCards`: every `throw` site first stores the error and sets
`complete = true`; the success path leaves both untouched (`error = null`,
`complete` still false until the caller finishes scoring). -/
structure AnalysisState where
  error : Option AnalyzeError
  complete : Bool
deriving DecidableEq

/-- The analysis record after `analyzeCards` returns or throws. -/
def analysisAfter (outcome : Except AnalyzeError (Option CardsObj)) : AnalysisState :=
  match outcome with
  | .error e => { error := some e, complete := true }
  | .ok _ => { error := none, complete := false }

/-! ## Keychain commit: `onKCSTimeout` and `onPlayerKeychain` storage -/

/-- A JS `Error` object as thrown by the analyzer: message plus the optional
numeric `code` property (absent unless explicitly assigned). -/
structure JsError where
  message : String
  code : Option Nat
deriving DecidableEq

/-- The `complete` / `error` fields of the analysis as touched by the
keychain-commit timeout handler. -/
structure KCSAnalysis where
  complete : Bool
  error : Option JsError
deriving DecidableEq

/-- The message text thrown by `onKCSTimeout` (source line 589). -/
def kcsTimeoutMessage (tableID : String) : String :=
  "Not all players have committed their keychains in time (table ID: " ++ tableID ++ ")"

/-- Embedding of `CypherPokerAnalyzer.onKCSTimeout(context, game)` (source
lines 587-590): set `analysis.complete = true` and throw a plain `Error`
(no `code` property is assigned and `analysis.error` is not written). -/
def onKCSTimeout (tableID : String) (analysis : KCSAnalysis) : KCSAnalysis × JsError :=
  ({ analysis with complete := true },
   { message := kcsTimeoutMessage tableID, code := none })

/-- The default of the `keychainCommitTimeout` property (source line 86). -/
def keychainCommitTimeoutDefault : Nat := 10000

/-- Lookup of `this._keychains[pid]`. -/
def lookupKeychain (keychains : List (Nat × List Nat)) (pid : Nat) : Option (List Nat) :=
  (keychains.find? (fun e => e.1 == pid)).map Prod.snd

/-- The keychain storage step of `onPlayerKeychain` (source line 608):
`this._keychains[player.privateID] = Array.from(event.keychain)` — a plain
JS property assignment, inserting or overwriting. -/
def recordKeychain (keychains : List (Nat × List Nat)) (pid : Nat)
    (keychain : List Nat) : List (Nat × List Nat) :=
  if (keychains.find? (fun e => e.1 == pid)).isSome then
    keychains.map (fun e => if e.1 == pid then (pid, keychain) else e)
  else keychains ++ [(pid, keychain)]

/-! # Theorems -/

/-! ## `compareDecks` is multiset equality (claim C4) -/

theorem removeFirst_of_not_mem {α : Type} [DecidableEq α] {x : α} {l : List α}
    (h : x ∉ l) : removeFirst x l = l := by
  induction l with
  | nil => rfl
  | cons y rest ih =>
    simp only [List.mem_cons, not_or] at h
    simp [removeFirst, Ne.symm h.1, ih h.2]

theorem perm_cons_removeFirst {α : Type} [DecidableEq α] {x : α} {l : List α}
    (h : x ∈ l) : l.Perm (x :: removeFirst x l) := by
  induction l with
  | nil => cases h
  | cons y rest ih =>
    by_cases hyx : y = x
    · subst hyx; simp [removeFirst]
    · have hx : x ∈ rest := by
        rcases List.mem_cons.mp h with h1 | h1
        · exact absurd h1.symm hyx
        · exact h1
      have : (y :: rest).Perm (y :: x :: removeFirst x rest) := (ih hx).cons y
      refine this.trans ?_
      simpa [removeFirst, hyx] using List.Perm.swap x y _

theorem length_removeFirst_succ {α : Type} [DecidableEq α] {x : α} {l : List α}
    (h : x ∈ l) : (removeFirst x l).length + 1 = l.length := by
  have := (perm_cons_removeFirst h).length_eq
  simpa using this.symm

theorem compareLoop_true_length {α : Type} [DecidableEq α] :
    ∀ (l d : List α), compareLoop l d = true → d.length ≤ l.length := by
  intro l
  induction l with
  | nil =>
    intro d h
    simp only [compareLoop, List.isEmpty_iff] at h
    simp [h]
  | cons c rest ih =>
    intro d h
    simp only [compareLoop] at h
    have hrec := ih _ h
    by_cases hc : c ∈ d
    · have := length_removeFirst_succ hc
      simp only [List.length_cons]
      omega
    · rw [removeFirst_of_not_mem hc] at hrec
      simp only [List.length_cons]
      omega

theorem compareLoop_iff_perm {α : Type} [DecidableEq α] :
    ∀ (l d : List α), l.length = d.length → (compareLoop l d = true ↔ l.Perm d) := by
  intro l
  induction l with
  | nil =>
    intro d hlen
    have : d = [] := List.length_eq_zero.mp hlen.symm
    subst this
    simp [compareLoop]
  | cons c rest ih =>
    intro d hlen
    by_cases hc : c ∈ d
    · have hperm : d.Perm (c :: removeFirst c d) := perm_cons_removeFirst hc
      have hl : rest.length = (removeFirst c d).length := by
        have := length_removeFirst_succ hc
        simp only [List.length_cons] at hlen
        omega
      constructor
      · intro h
        simp only [compareLoop] at h
        have := (ih _ hl).mp h
        exact (this.cons c).trans hperm.symm
      · intro h
        have : (c :: rest).Perm (c :: removeFirst c d) := h.trans hperm
        have hrp : rest.Perm (removeFirst c d) := this.cons_inv
        simpa [compareLoop] using (ih _ hl).mpr hrp
    · constructor
      · intro h
        simp only [compareLoop, removeFirst_of_not_mem hc] at h
        have := compareLoop_true_length _ _ h
        simp only [List.length_cons] at hlen
        omega
      · intro h
        exact absurd (h.mem_iff.mp (List.mem_cons_self c rest)) hc

/-- `compareDecks` decides permutation (multiset) equality. -/
theorem compareDecks_iff_perm {α : Type} [DecidableEq α] (d1 d2 : List α) :
    compareDecks d1 d2 = true ↔ d1.Perm d2 := by
  unfold compareDecks
  by_cases h : d1.length = d2.length
  · simpa [h] using compareLoop_iff_perm d1 d2 h
  · simp only [h, if_pos, ne_eq, not_false_eq_true, if_true]
    constructor
    · intro hf; cases hf
    · intro hp; exact absurd hp.length_eq h

theorem compareDecks_eq_false_of_not_perm {α : Type} [DecidableEq α]
    {d1 d2 : List α} (h : ¬ d1.Perm d2) : compareDecks d1 d2 = false := by
  cases hb : compareDecks d1 d2
  · rfl
  · exact absurd ((compareDecks_iff_perm d1 d2).mp hb) h

theorem compareDecks_congr_left {α : Type} [DecidableEq α]
    {d1 d1' : List α} (h : d1.Perm d1') (d2 : List α) :
    compareDecks d1 d2 = compareDecks d1' d2 := by
  cases hb : compareDecks d1' d2
  · exact compareDecks_eq_false_of_not_perm
      (fun hp => by
        have := ((compareDecks_iff_perm d1' d2).mpr (h.symm.trans hp))
        rw [hb] at this; cases this)
  · exact (compareDecks_iff_perm d1 d2).mpr
      (h.trans ((compareDecks_iff_perm d1' d2).mp hb))

/-! ## `removeFromDeck` lemmas (claims C5, C10) -/

theorem removeMatching_eq_filter {α : Type} [DecidableEq α] (x : α) (l : List α) :
    removeMatching x l = (l.filter (fun y => y ≠ x), l.count x) := by
  induction l with
  | nil => simp [removeMatching]
  | cons y rest ih =>
    by_cases hyx : y = x
    · subst hyx
      simp [removeMatching, ih, List.count_cons]
    · simp [removeMatching, hyx, ih, List.count_cons, List.filter_cons, Ne.symm hyx]

theorem rfdStep_eq {α : Type} [DecidableEq α] (D : List α) (n : Nat) (a : α) :
    rfdStep (D, n) a = (D.filter (fun y => decide (y ≠ a)), n + D.count a) := by
  simp [rfdStep, removeMatching_eq_filter]

theorem removeFromDeckLoop_deck {α : Type} [DecidableEq α] :
    ∀ (A D : List α) (n : Nat),
      (A.foldl rfdStep (D, n)).1 = D.filter (fun y => decide (y ∉ A)) := by
  intro A
  induction A with
  | nil => intro D n; simp
  | cons a A' ih =>
    intro D n
    rw [List.foldl_cons, rfdStep_eq, ih]
    rw [List.filter_filter]
    apply List.filter_congr
    intro x _
    by_cases hxa : x = a <;> by_cases hxA : x ∈ A' <;> simp [hxa, hxA]

theorem removeMatching_count_len {α : Type} [DecidableEq α] (a : α) (D : List α) :
    (removeMatching a D).2 + (removeMatching a D).1.length = D.length := by
  induction D with
  | nil => simp [removeMatching]
  | cons y rest ih =>
    by_cases hy : y = a <;> simp [removeMatching, hy] <;> omega

theorem removeFromDeckLoop_count {α : Type} [DecidableEq α] :
    ∀ (A D : List α) (n : Nat),
      (A.foldl rfdStep (D, n)).2 + (A.foldl rfdStep (D, n)).1.length
        = n + D.length := by
  intro A
  induction A with
  | nil => intro D n; simp
  | cons a A' ih =>
    intro D n
    rw [List.foldl_cons]
    have hstep : rfdStep (D, n) a
        = ((removeMatching a D).1, n + (removeMatching a D).2) := rfl
    rw [hstep]
    have h1 := ih (removeMatching a D).1 (n + (removeMatching a D).2)
    have h2 := removeMatching_count_len a D
    omega

/-- The deck left behind by `removeFromDeck` is the original deck with every
element that occurs in `removeItems` deleted. -/
theorem removeFromDeck_deck {α : Type} [DecidableEq α] (A D : List α) :
    (removeFromDeck A D).2 = D.filter (fun y => decide (y ∉ A)) := by
  unfold removeFromDeck removeFromDeckLoop
  exact removeFromDeckLoop_deck A D 0

/-- The boolean returned by `removeFromDeck` is true exactly when the number
of elements removed equals the number of items requested. -/
theorem removeFromDeck_bool_iff {α : Type} [DecidableEq α] (A D : List α) :
    (removeFromDeck A D).1 = true ↔
      D.length = (removeFromDeck A D).2.length + A.length := by
  unfold removeFromDeck removeFromDeckLoop
  have := removeFromDeckLoop_count A D 0
  simp only [beq_iff_eq]
  omega

theorem removeFromDeck_perm_left {α : Type} [DecidableEq α] {A A' : List α}
    (h : A.Perm A') (D : List α) :
    (removeFromDeck A D).2 = (removeFromDeck A' D).2 := by
  rw [removeFromDeck_deck, removeFromDeck_deck]
  apply List.filter_congr
  intro x _
  by_cases hx : x ∈ A
  · simp [hx, h.mem_iff.mp hx]
  · have hx' : x ∉ A' := fun hmem => hx (h.mem_iff.mpr hmem)
    simp [hx, hx']

theorem not_nodup_dedup_length_lt {α : Type} [DecidableEq α] {A : List α}
    (h : ¬ A.Nodup) : A.dedup.length < A.length := by
  have hle : A.dedup.length ≤ A.length := (List.dedup_sublist A).length_le
  rcases lt_or_eq_of_le hle with hlt | heq
  · exact hlt
  · exact absurd (((List.dedup_sublist A).eq_of_length heq) ▸ A.nodup_dedup) h

theorem filter_mem_split_length {α : Type} [DecidableEq α] (A D : List α) :
    (D.filter (fun y => decide (y ∈ A))).length
      + (D.filter (fun y => decide (y ∉ A))).length = D.length := by
  induction D with
  | nil => simp
  | cons y rest ih =>
    simp only [decide_not] at ih ⊢
    by_cases hy : y ∈ A <;> simp [List.filter_cons, hy] <;> omega

theorem removeFromDeck_false_of_dup {α : Type} [DecidableEq α] {A D : List α}
    (hD : D.Nodup) (hA : ¬ A.Nodup) : (removeFromDeck A D).1 = false := by
  cases hb : (removeFromDeck A D).1
  · rfl
  · exfalso
    have hlen := (removeFromDeck_bool_iff A D).mp hb
    rw [removeFromDeck_deck] at hlen
    -- the elements of D that lie in A form a nodup list inside A.dedup
    have hsub : (D.filter (fun y => decide (y ∈ A))) ⊆ A.dedup := by
      intro x hx
      have := List.of_mem_filter hx
      exact List.mem_dedup.mpr (by simpa using this)
    have hnd : (D.filter (fun y => decide (y ∈ A))).Nodup := hD.filter _
    have hsp := List.subperm_of_subset hnd hsub
    have hle := hsp.length_le
    have hsplit := filter_mem_split_length A D
    have hdl := not_nodup_dedup_length_lt hA
    simp only [decide_not] at hlen hsplit
    omega

/-! ## `straightType` lemmas (claim C7) -/

theorem straightType_congr {v v' : List Nat} (h : v.Perm v') :
    straightType v = straightType v' := by
  unfold straightType
  rw [h.length_eq]
  simp only [compareDecks_congr_left h]

theorem straightType_window {k : Nat} (h1 : 1 ≤ k) (h9 : k ≤ 9) :
    straightType [k, k + 1, k + 2, k + 3, k + 4] = k := by
  interval_cases k <;> decide

theorem straightType_ace : straightType [10, 11, 12, 13, 1] = 10 := by decide

theorem not_perm_of_two_le_count {v w : List Nat} {x : Nat}
    (h2 : 2 ≤ v.count x) (hw : w.Nodup) : ¬ v.Perm w := by
  intro hp
  have hc := hp.count_eq x
  have hle := (List.nodup_iff_count_le_one.mp hw) x
  omega

theorem straightType_eq_zero_of_two_le_count {v : List Nat} {x : Nat}
    (h2 : 2 ≤ v.count x) : straightType v = 0 := by
  have e1 : compareDecks v [1, 2, 3, 4, 5] = false :=
    compareDecks_eq_false_of_not_perm (not_perm_of_two_le_count h2 (by decide))
  have e2 : compareDecks v [2, 3, 4, 5, 6] = false :=
    compareDecks_eq_false_of_not_perm (not_perm_of_two_le_count h2 (by decide))
  have e3 : compareDecks v [3, 4, 5, 6, 7] = false :=
    compareDecks_eq_false_of_not_perm (not_perm_of_two_le_count h2 (by decide))
  have e4 : compareDecks v [4, 5, 6, 7, 8] = false :=
    compareDecks_eq_false_of_not_perm (not_perm_of_two_le_count h2 (by decide))
  have e5 : compareDecks v [5, 6, 7, 8, 9] = false :=
    compareDecks_eq_false_of_not_perm (not_perm_of_two_le_count h2 (by decide))
  have e6 : compareDecks v [6, 7, 8, 9, 10] = false :=
    compareDecks_eq_false_of_not_perm (not_perm_of_two_le_count h2 (by decide))
  have e7 : compareDecks v [7, 8, 9, 10, 11] = false :=
    compareDecks_eq_false_of_not_perm (not_perm_of_two_le_count h2 (by decide))
  have e8 : compareDecks v [8, 9, 10, 11, 12] = false :=
    compareDecks_eq_false_of_not_perm (not_perm_of_two_le_count h2 (by decide))
  have e9 : compareDecks v [9, 10, 11, 12, 13] = false :=
    compareDecks_eq_false_of_not_perm (not_perm_of_two_le_count h2 (by decide))
  have e10 : compareDecks v [10, 11, 12, 13, 1] = false :=
    compareDecks_eq_false_of_not_perm (not_perm_of_two_le_count h2 (by decide))
  unfold straightType
  by_cases hlen : v.length < 5
  · simp [hlen]
  · simp [hlen, e1, e2, e3, e4, e5, e6, e7, e8, e9, e10]

/-- Whenever `straightType` returns a nonzero value, the input really is the
corresponding rank window (up to permutation). -/
theorem straightType_spec (v : List Nat) :
    straightType v = 0
    ∨ (1 ≤ straightType v ∧ straightType v ≤ 9 ∧
        v.Perm [straightType v, straightType v + 1, straightType v + 2,
                straightType v + 3, straightType v + 4])
    ∨ (straightType v = 10 ∧ v.Perm [10, 11, 12, 13, 1]) := by
  unfold straightType
  split_ifs with h0 h1 h2 h3 h4 h5 h6 h7 h8 h9 h10
  · exact Or.inl rfl
  · exact Or.inr (Or.inl ⟨by norm_num, by norm_num, (compareDecks_iff_perm _ _).mp h1⟩)
  · exact Or.inr (Or.inl ⟨by norm_num, by norm_num, (compareDecks_iff_perm _ _).mp h2⟩)
  · exact Or.inr (Or.inl ⟨by norm_num, by norm_num, (compareDecks_iff_perm _ _).mp h3⟩)
  · exact Or.inr (Or.inl ⟨by norm_num, by norm_num, (compareDecks_iff_perm _ _).mp h4⟩)
  · exact Or.inr (Or.inl ⟨by norm_num, by norm_num, (compareDecks_iff_perm _ _).mp h5⟩)
  · exact Or.inr (Or.inl ⟨by norm_num, by norm_num, (compareDecks_iff_perm _ _).mp h6⟩)
  · exact Or.inr (Or.inl ⟨by norm_num, by norm_num, (compareDecks_iff_perm _ _).mp h7⟩)
  · exact Or.inr (Or.inl ⟨by norm_num, by norm_num, (compareDecks_iff_perm _ _).mp h8⟩)
  · exact Or.inr (Or.inl ⟨by norm_num, by norm_num, (compareDecks_iff_perm _ _).mp h9⟩)
  · exact Or.inr (Or.inr ⟨rfl, (compareDecks_iff_perm _ _).mp h10⟩)
  · exact Or.inl rfl

/-! ## Claim theorems: C4, C5, C10, C7 -/

/-- C4: for all arrays `A` and `B` of card values, `compareDecks(A, B)`
returns true iff `A` and `B` are equal as multisets; consequently it is
symmetric (`compareDecks(A, B) == compareDecks(B, A)`, duplicates included)
and reflexive (`compareDecks(A, A) == true`). -/
theorem compareDecks_multiset_eq_symm_refl :
    (∀ A B : List Nat, compareDecks A B = true ↔ A.Perm B)
    ∧ (∀ A B : List Nat, compareDecks A B = compareDecks B A)
    ∧ (∀ A : List Nat, compareDecks A A = true) := by
  refine ⟨fun A B => compareDecks_iff_perm A B, fun A B => ?_, fun A => ?_⟩
  · cases hb : compareDecks B A
    · exact compareDecks_eq_false_of_not_perm (fun hp => by
        have := (compareDecks_iff_perm B A).mpr hp.symm
        rw [hb] at this; cases this)
    · exact (compareDecks_iff_perm A B).mpr ((compareDecks_iff_perm B A).mp hb).symm
  · exact (compareDecks_iff_perm A A).mpr (List.Perm.refl A)

/-- C5: `removeFromDeck(A, D)` removes from `D` every element equal to some
element of `A`; it returns true iff the total number of removed elements
equals `A.length` (in particular duplicate submissions against a
duplicate-free deck fail the count); and the remaining deck is the same for
any permutation of `A`. -/
theorem removeFromDeck_spec :
    (∀ A D : List Nat, (removeFromDeck A D).2 = D.filter (fun y => decide (y ∉ A)))
    ∧ (∀ A D : List Nat, ((removeFromDeck A D).1 = true ↔
        D.length = (removeFromDeck A D).2.length + A.length))
    ∧ (∀ A A' D : List Nat, A.Perm A' →
        (removeFromDeck A D).2 = (removeFromDeck A' D).2)
    ∧ (∀ A D : List Nat, D.Nodup → ¬ A.Nodup → (removeFromDeck A D).1 = false) :=
  ⟨fun A D => removeFromDeck_deck A D,
   fun A D => removeFromDeck_bool_iff A D,
   fun _ _ D h => removeFromDeck_perm_left h D,
   fun _ _ hD hA => removeFromDeck_false_of_dup hD hA⟩

/-- Witness for C5 at concrete inputs: permuting the removal set leaves the
same remaining deck, and a duplicated submission against a duplicate-free
deck returns false. -/
theorem removeFromDeck_spec_witness :
    (removeFromDeck [1, 2] ([2, 3, 1] : List Nat)).2
        = (removeFromDeck [2, 1] ([2, 3, 1] : List Nat)).2
    ∧ (removeFromDeck [1, 1] ([1, 2, 3] : List Nat)).1 = false :=
  ⟨removeFromDeck_spec.2.2.1 [1, 2] [2, 1] [2, 3, 1] (by decide),
   removeFromDeck_spec.2.2.2 [1, 1] [1, 2, 3] (by decide) (by decide)⟩

/-- C10: `removeFromDeck` is not atomic on failure: on `A = [1, 2]`,
`D = [1]` it returns false yet has already removed the 1 from the deck. -/
theorem removeFromDeck_not_atomic :
    (removeFromDeck [1, 2] ([1] : List Nat)).1 = false
    ∧ (removeFromDeck [1, 2] ([1] : List Nat)).2 ≠ [1] := by
  decide

/-- C7: `straightType` returns the low rank `k` for every permutation of the
window `k..k+4` (`k = 1..9`), returns 10 for every permutation of the
ace-high window, returns 0 for every other 5-element multiset; and
`scoreHand` scores the low-ace straight A-2-3-4-5 strictly below the
straight 2-3-4-5-6. -/
theorem straightType_windows_and_low_ace :
    (∀ (v : List Nat) (k : Nat), 1 ≤ k → k ≤ 9 →
        v.Perm [k, k + 1, k + 2, k + 3, k + 4] → straightType v = k)
    ∧ (∀ v : List Nat, v.Perm [10, 11, 12, 13, 1] → straightType v = 10)
    ∧ (∀ v : List Nat, v.length = 5 →
        (∀ k, 1 ≤ k → k ≤ 9 → ¬ v.Perm [k, k + 1, k + 2, k + 3, k + 4]) →
        ¬ v.Perm [10, 11, 12, 13, 1] → straightType v = 0)
    ∧ scoreHand lowAceStraightHand < scoreHand sixHighStraightHand := by
  refine ⟨?_, ?_, ?_, ?_⟩
  · intro v k h1 h9 hp
    rw [straightType_congr hp]
    exact straightType_window h1 h9
  · intro v hp
    rw [straightType_congr hp]
    exact straightType_ace
  · intro v hlen hwin hace
    have e1 : compareDecks v [1, 2, 3, 4, 5] = false :=
      compareDecks_eq_false_of_not_perm (hwin 1 (by norm_num) (by norm_num))
    have e2 : compareDecks v [2, 3, 4, 5, 6] = false :=
      compareDecks_eq_false_of_not_perm (hwin 2 (by norm_num) (by norm_num))
    have e3 : compareDecks v [3, 4, 5, 6, 7] = false :=
      compareDecks_eq_false_of_not_perm (hwin 3 (by norm_num) (by norm_num))
    have e4 : compareDecks v [4, 5, 6, 7, 8] = false :=
      compareDecks_eq_false_of_not_perm (hwin 4 (by norm_num) (by norm_num))
    have e5 : compareDecks v [5, 6, 7, 8, 9] = false :=
      compareDecks_eq_false_of_not_perm (hwin 5 (by norm_num) (by norm_num))
    have e6 : compareDecks v [6, 7, 8, 9, 10] = false :=
      compareDecks_eq_false_of_not_perm (hwin 6 (by norm_num) (by norm_num))
    have e7 : compareDecks v [7, 8, 9, 10, 11] = false :=
      compareDecks_eq_false_of_not_perm (hwin 7 (by norm_num) (by norm_num))
    have e8 : compareDecks v [8, 9, 10, 11, 12] = false :=
      compareDecks_eq_false_of_not_perm (hwin 8 (by norm_num) (by norm_num))
    have e9 : compareDecks v [9, 10, 11, 12, 13] = false :=
      compareDecks_eq_false_of_not_perm (hwin 9 (by norm_num) (by norm_num))
    have e10 : compareDecks v [10, 11, 12, 13, 1] = false :=
      compareDecks_eq_false_of_not_perm hace
    unfold straightType
    simp [hlen, e1, e2, e3, e4, e5, e6, e7, e8, e9, e10]
  · decide

/-- Witness for C7 at concrete inputs. -/
theorem straightType_windows_witness :
    straightType [3, 2, 4, 5, 6] = 2 ∧ straightType [1, 13, 12, 11, 10] = 10
    ∧ straightType [2, 2, 3, 4, 5] = 0 :=
  ⟨straightType_windows_and_low_ace.1 [3, 2, 4, 5, 6] 2 (by decide) (by decide) (by decide),
   straightType_windows_and_low_ace.2.1 [1, 13, 12, 11, 10] (by decide),
   straightType_windows_and_low_ace.2.2.1 [2, 2, 3, 4, 5] (by decide)
     (by intro k h1 h9; interval_cases k <;> decide) (by decide)⟩

/-! ## Keychain storage lemmas (claim C3) -/

theorem find_map_update {m : List (Nat × List Nat)} {pid : Nat} (k : List Nat) :
    (m.find? (fun e => e.1 == pid)).isSome = true →
    ((m.map (fun e => if e.1 == pid then (pid, k) else e)).find?
        (fun e => e.1 == pid)) = some (pid, k) := by
  induction m with
  | nil => intro h; simp at h
  | cons e rest ih =>
    intro hs
    by_cases he : e.1 = pid
    · have hb : (e.1 == pid) = true := by simp [he]
      simp only [List.map_cons, hb, if_true]
      exact List.find?_cons_of_pos _ (by simp)
    · have hb : (e.1 == pid) = false := by simp [he]
      simp only [List.map_cons, hb, if_false]
      rw [List.find?_cons_of_neg _ (by simp [he])]
      apply ih
      rw [List.find?_cons_of_neg _ (by simp [he])] at hs
      exact hs

theorem find_map_update_other {m : List (Nat × List Nat)} {pid q : Nat}
    (k : List Nat) (hq : q ≠ pid) :
    ((m.map (fun e => if e.1 == pid then (pid, k) else e)).find?
        (fun e => e.1 == q)) = m.find? (fun e => e.1 == q) := by
  induction m with
  | nil => rfl
  | cons e rest ih =>
    by_cases he : e.1 = pid
    · have hb : (e.1 == pid) = true := by simp [he]
      simp only [List.map_cons, hb, if_true]
      rw [List.find?_cons_of_neg _ (by simp [Ne.symm hq]),
        List.find?_cons_of_neg _ (by simp [he, Ne.symm hq])]
      exact ih
    · have hb : (e.1 == pid) = false := by simp [he]
      simp only [List.map_cons, hb, Bool.false_eq_true, if_false]
      by_cases heq : e.1 = q
      · rw [List.find?_cons_of_pos _ (by simp [heq]),
          List.find?_cons_of_pos _ (by simp [heq])]
      · rw [List.find?_cons_of_neg _ (by simp [heq]),
          List.find?_cons_of_neg _ (by simp [heq])]
        exact ih

theorem find_append_one {m : List (Nat × List Nat)} (p : Nat × List Nat → Bool)
    (x : Nat × List Nat) :
    (m ++ [x]).find? p
      = match m.find? p with
        | some e => some e
        | none => if p x then some x else none := by
  induction m with
  | nil => cases hpx : p x <;> simp [List.find?, hpx]
  | cons e rest ih =>
    by_cases he : p e
    · rw [List.cons_append, List.find?_cons_of_pos _ he, List.find?_cons_of_pos _ he]
    · rw [List.cons_append, List.find?_cons_of_neg _ he, List.find?_cons_of_neg _ he]
      exact ih

/-- C3 counterexample: a second keychain submission by the same private ID is
not ignored; it replaces the stored keychain. -/
theorem recordKeychain_counterexample :
    lookupKeychain (recordKeychain (recordKeychain [] 1 [5]) 1 [7]) 1 = some [7]
    ∧ lookupKeychain (recordKeychain [] 1 [5]) 1 = some [5]
    ∧ some ([7] : List Nat) ≠ some [5] := by
  decide

/-- C3 (amended): keychain storage is an upsert per player that OVERWRITES:
after `recordKeychain(m, pid, k)` the stored keychain of `pid` is `k`, other
players' stored keychains are unchanged, and resubmitting the identical
keychain leaves the whole map unchanged (idempotent only for identical
payloads). -/
theorem recordKeychain_upsert_overwrite :
    (∀ (m : List (Nat × List Nat)) pid k,
      lookupKeychain (recordKeychain m pid k) pid = some k)
    ∧ (∀ (m : List (Nat × List Nat)) pid k q, q ≠ pid →
      lookupKeychain (recordKeychain m pid k) q = lookupKeychain m q)
    ∧ (∀ (m : List (Nat × List Nat)) pid k,
      recordKeychain (recordKeychain m pid k) pid k = recordKeychain m pid k) := by
  refine ⟨?_, ?_, ?_⟩
  · intro m pid k
    unfold recordKeychain lookupKeychain
    by_cases hs : (m.find? (fun e => e.1 == pid)).isSome = true
    · rw [if_pos hs, find_map_update k hs]
      rfl
    · have hnone : m.find? (fun e => e.1 == pid) = none := by
        cases h : m.find? (fun e => e.1 == pid)
        · rfl
        · rw [h] at hs; simp at hs
      rw [if_neg hs, find_append_one, hnone]
      simp
  · intro m pid k q hq
    unfold recordKeychain lookupKeychain
    by_cases hs : (m.find? (fun e => e.1 == pid)).isSome = true
    · rw [if_pos hs, find_map_update_other k hq]
    · rw [if_neg hs, find_append_one]
      cases h : m.find? (fun e => e.1 == q)
      · simp [Ne.symm hq]
      · rfl
  · intro m pid k
    unfold recordKeychain
    by_cases hs : (m.find? (fun e => e.1 == pid)).isSome = true
    · rw [if_pos hs]
      have hs2 : (((m.map (fun e => if e.1 == pid then (pid, k) else e)).find?
          (fun e => e.1 == pid))).isSome = true := by
        rw [find_map_update k hs]; rfl
      rw [if_pos hs2, List.map_map]
      apply List.map_congr_left
      intro e _
      by_cases he : e.1 = pid
      · simp [he]
      · simp [he]
    · rw [if_neg hs]
      have hnone : m.find? (fun e => e.1 == pid) = none := by
        cases h : m.find? (fun e => e.1 == pid)
        · rfl
        · rw [h] at hs; simp at hs
      have hs2 : (((m ++ [(pid, k)]).find? (fun e => e.1 == pid))).isSome = true := by
        rw [find_append_one, hnone]
        simp
      rw [if_pos hs2, List.map_append]
      have hall := List.find?_eq_none.mp hnone
      have h1 : m.map (fun e => if e.1 == pid then (pid, k) else e) = m := by
        conv_rhs => rw [← List.map_id m]
        apply List.map_congr_left
        intro e he
        simp only [id]
        exact if_neg (hall e he)
      rw [h1]
      simp

/-- Witness for the amended C3 at concrete inputs: overwriting player 1's
keychain leaves player 2's untouched. -/
theorem recordKeychain_upsert_witness :
    lookupKeychain (recordKeychain [(1, [5]), (2, [6])] 1 [7]) 2 = some [6] :=
  (recordKeychain_upsert_overwrite.2.1 [(1, [5]), (2, [6])] 1 [7] 2
    (by decide)).trans (by decide)

/-! ## Keychain-commit timeout (claim C2) -/

/-- C2 counterexample: from a fresh analysis state, the timeout handler
throws an error that carries NO numeric code (in particular not code 0) and
records nothing in `analysis.error`. -/
theorem onKCSTimeout_counterexample :
    (onKCSTimeout "table1" ⟨false, none⟩).2.code ≠ some 0
    ∧ (onKCSTimeout "table1" ⟨false, none⟩).1.error = none := by
  exact ⟨by simp [onKCSTimeout], rfl⟩

/-- C2 (amended): when the keychain-commit timer (default 10,000 ms) fires,
the handler marks `analysis.complete = true` and throws an `Error` whose
message reports the keychain timeout; the thrown error carries no numeric
code, `analysis.error` is left unchanged, and no verification is performed
(the handler touches nothing else). -/
theorem onKCSTimeout_spec :
    (∀ (tid : String) (st : KCSAnalysis),
      (onKCSTimeout tid st).1.complete = true
      ∧ (onKCSTimeout tid st).1.error = st.error
      ∧ (onKCSTimeout tid st).2.code = none
      ∧ (onKCSTimeout tid st).2.message = kcsTimeoutMessage tid)
    ∧ keychainCommitTimeoutDefault = 10000 :=
  ⟨fun _ _ => ⟨rfl, rfl, rfl, rfl⟩, rfl⟩

/-! ## Empty transcript (claim C9) -/

/-- C9: with no captured deck snapshots, `analyzeCards` resolves with `null`
(not a coded error): no `AnalyzeError` is raised, `analysis.error` stays
null and the analysis is not marked complete by `analyzeCards`. -/
theorem analyzeCards_empty_deck_null :
    ∀ (encrypt decrypt : Nat → Nat → Nat) (keychains : List (Nat × List Nat))
      (mappedDeck : List Card) (deals : List (Nat × List DealEntry)),
      analyzeCards encrypt decrypt keychains mappedDeck [] deals = .ok none
      ∧ (analysisAfter
          (analyzeCards encrypt decrypt keychains mappedDeck [] deals)).error = none
      ∧ (analysisAfter
          (analyzeCards encrypt decrypt keychains mappedDeck [] deals)).complete = false :=
  fun _ _ _ _ _ => ⟨rfl, rfl, rfl⟩

/-! ## Deck verification (claim C1) -/

theorem restCheck_shift {encrypt : Nat → Nat → Nat} {keychains : List (Nat × List Nat)}
    (prev : List Nat) (cur : DeckSnap) (rest' : List DeckSnap) (j : Nat) :
    restCheck encrypt keychains cur.cards rest' j
      = restCheck encrypt keychains prev (cur :: rest') (j + 1) := by
  unfold restCheck
  cases j with
  | zero => simp
  | succ j' => simp [List.getD_cons_succ]

theorem verifyDeckLoop_error {encrypt : Nat → Nat → Nat}
    {keychains : List (Nat × List Nat)} :
    ∀ (rest : List DeckSnap) (prev : List Nat) (s i : Nat),
      i < rest.length →
      (∀ j, j < i → restCheck encrypt keychains prev rest j = true) →
      restCheck encrypt keychains prev rest i = false →
      verifyDeckLoop encrypt keychains s prev rest
        = .error (.deckMismatch (s + i) (rest.getD i default).fromPID) := by
  intro rest
  induction rest with
  | nil => intro prev s i hi; simp at hi
  | cons cur rest' ih =>
    intro prev s i hi hall hfail
    cases i with
    | zero =>
      have h0 : compareDecks cur.cards
          (prev.map (fun v => encrypt v (keypairOf keychains cur.fromPID))) = false := by
        simpa [restCheck] using hfail
      simp [verifyDeckLoop, h0]
    | succ i' =>
      have h0 := hall 0 (Nat.succ_pos i')
      have h0' : compareDecks cur.cards
          (prev.map (fun v => encrypt v (keypairOf keychains cur.fromPID))) = true := by
        simpa [restCheck] using h0
      have hrec := ih cur.cards (s + 1) i'
        (by simpa [List.length_cons, Nat.succ_lt_succ_iff] using hi)
        (fun j hj => by
          rw [restCheck_shift prev]
          exact hall (j + 1) (Nat.succ_lt_succ hj))
        (by rw [restCheck_shift prev]; exact hfail)
      have harith : s + 1 + i' = s + (i' + 1) := by omega
      rw [harith] at hrec
      simp only [verifyDeckLoop, h0', List.getD_cons_succ]
      simpa using hrec

theorem verifyDeckLoop_ok {encrypt : Nat → Nat → Nat}
    {keychains : List (Nat × List Nat)} :
    ∀ (rest : List DeckSnap) (prev : List Nat) (s : Nat),
      (∀ j, j < rest.length → restCheck encrypt keychains prev rest j = true) →
      verifyDeckLoop encrypt keychains s prev rest
        = .ok ((rest.map DeckSnap.cards).getLastD prev) := by
  intro rest
  induction rest with
  | nil => intro prev s _; rfl
  | cons cur rest' ih =>
    intro prev s hall
    have h0 := hall 0 (Nat.succ_pos _)
    have h0' : compareDecks cur.cards
        (prev.map (fun v => encrypt v (keypairOf keychains cur.fromPID))) = true := by
      simpa [restCheck] using h0
    have hrec := ih cur.cards (s + 1)
      (fun j hj => by
        rw [restCheck_shift prev]
        exact hall (j + 1) (Nat.succ_lt_succ hj))
    simp only [verifyDeckLoop, h0', List.map_cons, List.getLastD_cons]
    simpa using hrec

theorem stageCheck_eq_restCheck {encrypt : Nat → Nat → Nat}
    {keychains : List (Nat × List Nat)} (d0 : DeckSnap) (rest : List DeckSnap)
    {j : Nat} (hj : 1 ≤ j) :
    stageCheck encrypt keychains (d0 :: rest) j
      = restCheck encrypt keychains d0.cards rest (j - 1) := by
  unfold stageCheck restCheck
  cases j with
  | zero => omega
  | succ j' =>
    simp only [List.getD_cons_succ, Nat.add_sub_cancel]
    cases j' with
    | zero => simp
    | succ j'' => simp [List.getD_cons_succ]

/-- C1: the deck verifier replays each stage `i = 1..n` by encrypting every
card of snapshot `i-1` under the last keypair of the keychain stored for
snapshot `i`'s sender and compares multisets (`stageCheck`); when every stage
passes the loop returns the final committed deck, and at the first failing
stage `i` `analyzeCards` throws the error carrying numeric code 1 that names
stage `i` and that sender, records it in `analysis.error`, marks the analysis
complete, and never looks at the deals (the result is identical for every
deal transcript). -/
theorem analyzeCards_deck_verification :
    (∀ (encrypt : Nat → Nat → Nat) (keychains : List (Nat × List Nat))
        (d0 : DeckSnap) (rest : List DeckSnap),
      (∀ j, 1 ≤ j → j < (d0 :: rest).length →
        stageCheck encrypt keychains (d0 :: rest) j = true) →
      verifyDeckLoop encrypt keychains 1 d0.cards rest
        = .ok ((rest.map DeckSnap.cards).getLastD d0.cards))
    ∧ (∀ (encrypt decrypt : Nat → Nat → Nat) (keychains : List (Nat × List Nat))
        (mappedDeck : List Card) (d0 : DeckSnap) (rest : List DeckSnap)
        (deals : List (Nat × List DealEntry)) (i : Nat),
      1 ≤ i → i < (d0 :: rest).length →
      (∀ j, 1 ≤ j → j < i → stageCheck encrypt keychains (d0 :: rest) j = true) →
      stageCheck encrypt keychains (d0 :: rest) i = false →
      (analyzeCards encrypt decrypt keychains mappedDeck (d0 :: rest) deals
          = .error (.deckMismatch i ((d0 :: rest).getD i default).fromPID))
      ∧ (AnalyzeError.deckMismatch i ((d0 :: rest).getD i default).fromPID).code = 1
      ∧ (analysisAfter (analyzeCards encrypt decrypt keychains mappedDeck
          (d0 :: rest) deals)).error
          = some (.deckMismatch i ((d0 :: rest).getD i default).fromPID)
      ∧ (analysisAfter (analyzeCards encrypt decrypt keychains mappedDeck
          (d0 :: rest) deals)).complete = true
      ∧ (∀ deals' : List (Nat × List DealEntry),
          analyzeCards encrypt decrypt keychains mappedDeck (d0 :: rest) deals'
            = analyzeCards encrypt decrypt keychains mappedDeck (d0 :: rest) deals)) := by
  constructor
  · intro encrypt keychains d0 rest hall
    apply verifyDeckLoop_ok
    intro j hj
    have := hall (j + 1) (by omega) (by simp; omega)
    rw [stageCheck_eq_restCheck d0 rest (by omega)] at this
    simpa using this
  · intro encrypt decrypt keychains mappedDeck d0 rest deals i h1 hilen hall hfail
    have hloop : verifyDeckLoop encrypt keychains 1 d0.cards rest
        = .error (.deckMismatch i ((d0 :: rest).getD i default).fromPID) := by
      have := verifyDeckLoop_error rest d0.cards 1 (i - 1)
        (by simp only [List.length_cons] at hilen; omega)
        (fun j hj => by
          have := hall (j + 1) (by omega) (by omega)
          rw [stageCheck_eq_restCheck d0 rest (by omega)] at this
          simpa using this)
        (by
          rw [stageCheck_eq_restCheck d0 rest h1] at hfail
          exact hfail)
      have harith : 1 + (i - 1) = i := by omega
      rw [harith] at this
      have hget : (d0 :: rest).getD i default = rest.getD (i - 1) default := by
        cases i with
        | zero => omega
        | succ i' => simp [List.getD_cons_succ]
      rw [hget]
      exact this
    have hres : analyzeCards encrypt decrypt keychains mappedDeck (d0 :: rest) deals
        = .error (.deckMismatch i ((d0 :: rest).getD i default).fromPID) := by
      simp only [analyzeCards, hloop]
    refine ⟨hres, rfl, ?_, ?_, ?_⟩
    · rw [hres]; rfl
    · rw [hres]; rfl
    · intro deals'
      have hres' : analyzeCards encrypt decrypt keychains mappedDeck (d0 :: rest) deals'
          = .error (.deckMismatch i ((d0 :: rest).getD i default).fromPID) := by
        simp only [analyzeCards, hloop]
      rw [hres, hres']

/-- Witness for C1 at a concrete transcript: with `encrypt v k = v + k`,
keychains `{1 ↦ [10], 2 ↦ [20]}`, plaintext deck `[1, 2]`, a correct
(shuffled) stage-1 snapshot `[22, 21]` by player 2 and a tampered stage-2
snapshot `[31, 999]` by player 1, the analysis fails with the code-1 error at
stage 2 naming player 1, independently of the deals. -/
theorem analyzeCards_deck_verification_witness :
    analyzeCards (fun v k => v + k) (fun v k => v - k) [(1, [10]), (2, [20])] []
        [⟨1, [1, 2]⟩, ⟨2, [22, 21]⟩, ⟨1, [31, 999]⟩] []
      = .error (.deckMismatch 2 1)
    ∧ (AnalyzeError.deckMismatch 2 1).code = 1 := by
  have h := (analyzeCards_deck_verification.2 (fun v k => v + k) (fun v k => v - k)
    [(1, [10]), (2, [20])] [] ⟨1, [1, 2]⟩ [⟨2, [22, 21]⟩, ⟨1, [31, 999]⟩] [] 2
    (by decide) (by decide)
    (by intro j hj1 hj2; interval_cases j; decide)
    (by decide))
  exact ⟨h.1, h.2.1⟩

/-! ## Winner resolution (claim C8) -/

theorem one_lt_length_of_two_mem {α : Type} {a b : α} {l : List α}
    (ha : a ∈ l) (hb : b ∈ l) (hab : a ≠ b) : 1 < l.length := by
  cases l with
  | nil => cases ha
  | cons x rest =>
    cases rest with
    | nil =>
      simp only [List.mem_singleton] at ha hb
      exact absurd (ha.trans hb.symm) hab
    | cons y r =>
      simp only [List.length_cons]
      omega

theorem dedupFold_nodup :
    ∀ (l : List (AnPlayer × HandObj)) (acc : List AnPlayer × List HandObj),
      acc.1.Nodup → (l.foldl dedupStep acc).1.Nodup := by
  intro l
  induction l with
  | nil => intro acc h; exact h
  | cons pw rest ih =>
    intro acc h
    rw [List.foldl_cons]
    apply ih
    unfold dedupStep
    by_cases hmem : ((acc.1.find? (fun w => decide (w = pw.1))).isSome : Bool) = true
    · rw [if_pos hmem]; exact h
    · rw [if_neg hmem]
      have hnone : acc.1.find? (fun w => decide (w = pw.1)) = none := by
        cases hfind : acc.1.find? (fun w => decide (w = pw.1))
        · rfl
        · rw [hfind] at hmem; simp at hmem
      have hnotmem : pw.1 ∉ acc.1 := by
        intro hin
        have := List.find?_eq_none.mp hnone _ hin
        simp at this
      simp [List.nodup_append, h, hnotmem]

theorem dedupFold_mem :
    ∀ (l : List (AnPlayer × HandObj)) (acc : List AnPlayer × List HandObj)
      (x : AnPlayer),
      (x ∈ (l.foldl dedupStep acc).1 ↔ x ∈ acc.1 ∨ x ∈ l.map Prod.fst) := by
  intro l
  induction l with
  | nil => intro acc x; simp
  | cons pw rest ih =>
    intro acc x
    rw [List.foldl_cons, ih]
    unfold dedupStep
    by_cases hmem : ((acc.1.find? (fun w => decide (w = pw.1))).isSome : Bool) = true
    · rw [if_pos hmem]
      have hin : pw.1 ∈ acc.1 := by
        cases hfind : acc.1.find? (fun w => decide (w = pw.1)) with
        | none => rw [hfind] at hmem; simp at hmem
        | some w =>
          have hw := List.find?_some hfind
          have := List.mem_of_find?_eq_some hfind
          simp only [decide_eq_true_eq] at hw
          rwa [hw] at this
      simp only [List.map_cons, List.mem_cons]
      constructor
      · rintro (h | h)
        · exact Or.inl h
        · exact Or.inr (Or.inr h)
      · rintro (h | h | h)
        · exact Or.inl h
        · exact Or.inl (h ▸ hin)
        · exact Or.inr h
    · rw [if_neg hmem]
      simp only [List.mem_append, List.mem_singleton, List.map_cons, List.mem_cons]
      tauto

theorem holeTiebreak_nonneg (playersObj : List (Nat × List Card)) (pid : Nat) :
    0 ≤ holeTiebreak playersObj pid := by
  simp only [holeTiebreak]
  split_ifs <;> positivity

theorem tieFold_players_const {playersObj : List (Nat × List Card)} {t : Int} :
    ∀ (l : List (AnPlayer × HandObj)) (st : ScanState),
      st.highestScore = t →
      (∀ pw ∈ l, holeTiebreak playersObj pw.1.privateID = t) →
      (l.foldl (tieStep playersObj) st).winningPlayers
          = st.winningPlayers ++ l.map Prod.fst
      ∧ (l.foldl (tieStep playersObj) st).highestScore = t
      ∧ (((l.foldl (tieStep playersObj) st).winningPlayers).length
          = ((l.foldl (tieStep playersObj) st).winningHands).length
          ∨ ¬ st.winningPlayers.length = st.winningHands.length) := by
  intro l
  induction l with
  | nil =>
    intro st hst _
    refine ⟨by simp, hst, ?_⟩
    by_cases hlen : st.winningPlayers.length = st.winningHands.length
    · exact Or.inl hlen
    · exact Or.inr hlen
  | cons pw rest ih =>
    intro st hst hall
    have hpw := hall pw (List.mem_cons_self _ _)
    rw [List.foldl_cons]
    have hstep : tieStep playersObj st pw
        = { st with winningPlayers := st.winningPlayers ++ [pw.1],
                    winningHands := st.winningHands
                      ++ [{ pw.2 with score := holeTiebreak playersObj pw.1.privateID }] } := by
      simp only [tieStep, hpw, hst]
      rw [if_neg (lt_irrefl t), if_pos (by simp)]
    rw [hstep]
    have hrec := ih
      { st with winningPlayers := st.winningPlayers ++ [pw.1],
                winningHands := st.winningHands
                  ++ [{ pw.2 with score := holeTiebreak playersObj pw.1.privateID }] }
      (by simp [hst]) (fun x hx => hall x (List.mem_cons_of_mem _ hx))
    refine ⟨?_, hrec.2.1, ?_⟩
    · rw [hrec.1]
      simp
    · rcases hrec.2.2 with h | h
      · exact Or.inl h
      · right
        intro hc
        apply h
        simp [hc]

theorem tieFold_from_zero {playersObj : List (Nat × List Card)} {t : Int} :
    ∀ (l : List (AnPlayer × HandObj)),
      0 ≤ t →
      (∀ pw ∈ l, holeTiebreak playersObj pw.1.privateID = t) →
      (l.foldl (tieStep playersObj) ⟨0, [], []⟩).winningPlayers = l.map Prod.fst
      ∧ ((l.foldl (tieStep playersObj) ⟨0, [], []⟩).winningPlayers).length
          = ((l.foldl (tieStep playersObj) ⟨0, [], []⟩).winningHands).length := by
  intro l ht hall
  cases l with
  | nil => exact ⟨rfl, rfl⟩
  | cons pw rest =>
    have hpw := hall pw (List.mem_cons_self _ _)
    rw [List.foldl_cons]
    have hstep : tieStep playersObj ⟨0, [], []⟩ pw
        = ⟨t, [pw.1], [{ pw.2 with score := t }]⟩ := by
      simp only [tieStep, hpw]
      rcases lt_or_eq_of_le ht with hlt | heq
    -- t > 0 takes the reset branch; t = 0 appends to the empty lists instead
      · rw [if_pos hlt]
      · rw [if_neg (by omega), if_pos (by simp [← heq])]
        simp [← heq]
    rw [hstep]
    have hrec := @tieFold_players_const playersObj t rest
      ⟨t, [pw.1], [{ pw.2 with score := t }]⟩ rfl
      (fun x hx => hall x (List.mem_cons_of_mem _ hx))
    refine ⟨by rw [hrec.1]; simp, ?_⟩
    rcases hrec.2.2 with h | h
    · exact h
    · simp at h

theorem scanStep_len {p : AnPlayer} {st : ScanState} {hObj : HandObj}
    (h : st.winningPlayers.length = st.winningHands.length) :
    ((scanStep p st hObj).winningPlayers).length
      = ((scanStep p st hObj).winningHands).length := by
  simp only [scanStep]
  split_ifs <;> simp [h]

theorem scanFold_len {p : AnPlayer} :
    ∀ (l : List HandObj) (st : ScanState),
      st.winningPlayers.length = st.winningHands.length →
      ((l.foldl (scanStep p) st).winningPlayers).length
        = ((l.foldl (scanStep p) st).winningHands).length := by
  intro l
  induction l with
  | nil => intro st h; exact h
  | cons hObj rest ih =>
    intro st h
    rw [List.foldl_cons]
    exact ih _ (scanStep_len h)

theorem phase1Fold_len {roster : List AnPlayer} {pub : List Card} :
    ∀ (l : List (Nat × List Card)) (acc : List (Nat × List HandObj) × ScanState),
      (acc.2.winningPlayers).length = (acc.2.winningHands).length →
      (((l.foldl (phase1Step roster pub) acc).2.winningPlayers)).length
        = (((l.foldl (phase1Step roster pub) acc).2.winningHands)).length := by
  intro l
  induction l with
  | nil => intro acc h; exact h
  | cons entry rest ih =>
    intro acc h
    rw [List.foldl_cons]
    apply ih
    unfold phase1Step
    cases getPlayer roster entry.1 with
    | none => exact h
    | some player =>
      by_cases hf : player.hasFolded = true
      · simp only [hf, if_true]
        exact h
      · simp only [hf, if_false]
        exact scanFold_len _ _ h

theorem phase1_len (roster : List AnPlayer) (playersObj : List (Nat × List Card))
    (pub : List Card) :
    ((phase1 roster playersObj pub).2.winningPlayers).length
      = ((phase1 roster playersObj pub).2.winningHands).length := by
  unfold phase1
  exact phase1Fold_len playersObj ([], ⟨-1, [], []⟩) rfl

/-- C8: every winning player appears in the final `winningPlayers` exactly
once (the list is duplicate-free for all inputs), and whenever exactly two
distinct non-folded players hold the best permutations at the shared top
score and their hole-card tiebreaks are equal, both appear in the final
`winningPlayers`. -/
theorem scoreHands_split_pot :
    (∀ (roster : List AnPlayer) (playersObj : List (Nat × List Card))
        (pub : List Card),
      (scoreHands roster playersObj pub).winningPlayers.Nodup)
    ∧ (∀ (roster : List AnPlayer) (playersObj : List (Nat × List Card))
        (pub : List Card) (P Q : AnPlayer),
      P ≠ Q →
      P ∈ (phase1 roster playersObj pub).2.winningPlayers →
      Q ∈ (phase1 roster playersObj pub).2.winningPlayers →
      (∀ R ∈ (phase1 roster playersObj pub).2.winningPlayers, R = P ∨ R = Q) →
      holeTiebreak playersObj P.privateID = holeTiebreak playersObj Q.privateID →
      P ∈ (scoreHands roster playersObj pub).winningPlayers
      ∧ Q ∈ (scoreHands roster playersObj pub).winningPlayers) := by
  constructor
  · intro roster playersObj pub
    have : (scoreHands roster playersObj pub).winningPlayers
        = (dedupWinners (phase2 playersObj (phase1 roster playersObj pub).2.winningPlayers
            (phase1 roster playersObj pub).2.winningHands).1
          (phase2 playersObj (phase1 roster playersObj pub).2.winningPlayers
            (phase1 roster playersObj pub).2.winningHands).2).1 := rfl
    rw [this]
    exact dedupFold_nodup _ _ List.nodup_nil
  · intro roster playersObj pub P Q hPQ hPmem hQmem honly htie
    set wp := (phase1 roster playersObj pub).2.winningPlayers with hwp
    set wh := (phase1 roster playersObj pub).2.winningHands with hwh
    have hlen : wp.length = wh.length := phase1_len roster playersObj pub
    have hgt : 1 < wp.length := one_lt_length_of_two_mem hPmem hQmem hPQ
    set t := holeTiebreak playersObj P.privateID with htdef
    have hallzip : ∀ pw ∈ wp.zip wh, holeTiebreak playersObj pw.1.privateID = t := by
      intro pw hpw
      have hfst : pw.1 ∈ wp := by
        have := List.mem_map_of_mem Prod.fst hpw
        rwa [List.map_fst_zip wp wh (le_of_eq hlen)] at this
      rcases honly pw.1 hfst with h | h
      · rw [h]
      · rw [h]; exact htie.symm
    have hfold := @tieFold_from_zero playersObj t
      (wp.zip wh) (holeTiebreak_nonneg playersObj P.privateID) hallzip
    have hphase2 : (phase2 playersObj wp wh).1 = wp := by
      unfold phase2
      rw [if_pos hgt]
      simp only
      rw [hfold.1]
      exact List.map_fst_zip wp wh (le_of_eq hlen)
    have hphase2len : (phase2 playersObj wp wh).1.length
        = (phase2 playersObj wp wh).2.length := by
      unfold phase2
      rw [if_pos hgt]
      exact hfold.2
    have hfinal : (scoreHands roster playersObj pub).winningPlayers
        = (dedupWinners (phase2 playersObj wp wh).1 (phase2 playersObj wp wh).2).1 := rfl
    rw [hfinal]
    unfold dedupWinners
    constructor
    · rw [dedupFold_mem]
      right
      rw [List.map_fst_zip _ _ (le_of_eq hphase2len), hphase2]
      exact hPmem
    · rw [dedupFold_mem]
      right
      rw [List.map_fst_zip _ _ (le_of_eq hphase2len), hphase2]
      exact hQmem

/-- Witness for C8 at a concrete two-player split pot: both players hold the
same high-card hand through the community cards and identical hole ranks, so
both appear among the winners. -/
theorem scoreHands_split_pot_witness :
    (⟨1, false⟩ : AnPlayer) ∈ (scoreHands [⟨1, false⟩, ⟨2, false⟩]
        [(1, [⟨0, 2, 2, 2⟩, ⟨0, 3, 3, 3⟩]), (2, [⟨0, 1, 2, 2⟩, ⟨0, 0, 3, 3⟩])]
        [⟨0, 3, 7, 7⟩, ⟨0, 2, 8, 8⟩, ⟨0, 1, 11, 11⟩]).winningPlayers
    ∧ (⟨2, false⟩ : AnPlayer) ∈ (scoreHands [⟨1, false⟩, ⟨2, false⟩]
        [(1, [⟨0, 2, 2, 2⟩, ⟨0, 3, 3, 3⟩]), (2, [⟨0, 1, 2, 2⟩, ⟨0, 0, 3, 3⟩])]
        [⟨0, 3, 7, 7⟩, ⟨0, 2, 8, 8⟩, ⟨0, 1, 11, 11⟩]).winningPlayers :=
  scoreHands_split_pot.2 [⟨1, false⟩, ⟨2, false⟩]
    [(1, [⟨0, 2, 2, 2⟩, ⟨0, 3, 3, 3⟩]), (2, [⟨0, 1, 2, 2⟩, ⟨0, 0, 3, 3⟩])]
    [⟨0, 3, 7, 7⟩, ⟨0, 2, 8, 8⟩, ⟨0, 1, 11, 11⟩]
    ⟨1, false⟩ ⟨2, false⟩ (by decide) (by decide) (by decide) (by decide) (by decide)

/-! ## `scoreHand` is permutation invariant (claim C6, part 1) -/

theorem foldl_add_int (f : Card → Int) :
    ∀ (l : List Card) (n : Int),
      l.foldl (fun acc c => acc + f c) n = n + (l.map f).sum := by
  intro l
  induction l with
  | nil => intro n; simp
  | cons c rest ih =>
    intro n
    rw [List.foldl_cons, ih, List.map_cons, List.sum_cons]
    ring

theorem foldl_add_nat (f : Card → Nat) :
    ∀ (l : List Card) (n : Nat),
      l.foldl (fun acc c => acc + f c) n = n + (l.map f).sum := by
  intro l
  induction l with
  | nil => intro n; simp
  | cons c rest ih =>
    intro n
    rw [List.foldl_cons, ih, List.map_cons, List.sum_cons]
    omega

theorem getCardSum_eq_sum (g : List Card) (b : Bool) :
    getCardSum g b = (g.map (fun c => if b then c.highvalue else c.value)).sum := by
  unfold getCardSum
  rw [foldl_add_nat]
  simp

theorem getCardSum_congr {g g' : List Card} (h : g.Perm g') (b : Bool) :
    getCardSum g b = getCardSum g' b :=
  (getCardSum_eq_sum g b).trans (((h.map _).sum_eq).trans (getCardSum_eq_sum g' b).symm)

theorem foldl_max_perm {l l' : List Nat} (h : l.Perm l') :
    ∀ n : Nat, l.foldl max n = l'.foldl max n := by
  induction h with
  | nil => intro n; rfl
  | cons x _ ih =>
    intro n
    rw [List.foldl_cons, List.foldl_cons, ih]
  | swap x y rest =>
    intro n
    simp only [List.foldl_cons]
    have : max (max n y) x = max (max n x) y := by omega
    rw [this]
  | trans _ _ ih1 ih2 =>
    intro n
    rw [ih1, ih2]

theorem foldl_max_map (l : List Card) :
    ∀ n : Nat, l.foldl (fun m c => max m c.highvalue) n
      = (l.map Card.highvalue).foldl max n := by
  induction l with
  | nil => intro n; rfl
  | cons c rest ih =>
    intro n
    rw [List.foldl_cons, List.map_cons, List.foldl_cons, ih]

theorem handValueCalc_congr {l l' : List Card} (h : l.Perm l') (mult : Nat)
    (acesHigh : Bool) : handValueCalc l mult acesHigh = handValueCalc l' mult acesHigh := by
  unfold handValueCalc
  by_cases hm : 1 < mult
  · rw [if_pos hm, if_pos hm, foldl_add_int, foldl_add_int]
    rw [(h.map (fun c => if acesHigh then (c.highvalue : Int) else (c.value : Int))).sum_eq]
  · rw [if_neg hm, if_neg hm, foldl_max_map, foldl_max_map,
      foldl_max_perm (h.map Card.highvalue)]

theorem distinctValuesAsc_congr {l l' : List Card} (h : l.Perm l') :
    distinctValuesAsc l = distinctValuesAsc l' := by
  unfold distinctValuesAsc
  refine List.eq_of_perm_of_sorted ?_ (List.sorted_insertionSort _ _)
    (List.sorted_insertionSort _ _)
  exact (List.perm_insertionSort _ _).trans
    (((h.map Card.value).dedup).trans (List.perm_insertionSort _ _).symm)

theorem forall₂_map_map {α β : Type} {R : β → β → Prop} (f g : α → β)
    (l : List α) (hfg : ∀ x ∈ l, R (f x) (g x)) :
    List.Forall₂ R (l.map f) (l.map g) := by
  induction l with
  | nil => exact List.Forall₂.nil
  | cons x rest ih =>
    exact List.Forall₂.cons (hfg x (List.mem_cons_self _ _))
      (ih (fun y hy => hfg y (List.mem_cons_of_mem _ hy)))

theorem valueGroups_forall₂ {l l' : List Card} (h : l.Perm l') :
    List.Forall₂ List.Perm (valueGroups l) (valueGroups l') := by
  unfold valueGroups
  rw [distinctValuesAsc_congr h]
  exact forall₂_map_map _ _ _ (fun v _ => h.filter _)

theorem kickerAdjustAux_congr {keep mult : Nat} :
    ∀ {gs gs' : List (List Card)}, List.Forall₂ List.Perm gs gs' →
    ∀ (adj : Int),
      gs.foldl (fun adj g =>
        if g.length ≠ keep then
          ((getCardSum g true : Int)) * (mult : Int) * (-1) + ((getCardSum g true : Int))
        else adj) adj
      = gs'.foldl (fun adj g =>
        if g.length ≠ keep then
          ((getCardSum g true : Int)) * (mult : Int) * (-1) + ((getCardSum g true : Int))
        else adj) adj := by
  intro gs gs' h
  induction h with
  | nil => intro adj; rfl
  | cons hg hrest ih =>
    intro adj
    rw [List.foldl_cons, List.foldl_cons]
    rw [hg.length_eq, getCardSum_congr hg]
    exact ih _

theorem kickerAdjust_congr {gs gs' : List (List Card)}
    (h : List.Forall₂ List.Perm gs gs') (keep mult : Nat) :
    kickerAdjust gs keep mult = kickerAdjust gs' keep mult :=
  kickerAdjustAux_congr h 0

theorem groupLenAt_congr :
    ∀ {gs gs' : List (List Card)}, List.Forall₂ List.Perm gs gs' →
    ∀ i, groupLenAt gs i = groupLenAt gs' i := by
  intro gs gs' h
  induction h with
  | nil => intro i; rfl
  | cons hg hrest ih =>
    intro i
    cases i with
    | zero => simpa [groupLenAt] using hg.length_eq
    | succ i' => simpa [groupLenAt, List.getD_cons_succ] using ih i'

theorem numSuits_congr {l l' : List Card} (h : l.Perm l') : numSuits l = numSuits l' :=
  ((h.map Card.suit).dedup).length_eq

theorem handFlush_congr {l l' : List Card} (h : l.Perm l') :
    handFlush l = handFlush l' := by
  unfold handFlush
  rw [numSuits_congr h, h.length_eq]

theorem scoreParams_congr {l l' : List Card} (hp : l.Perm l') :
    scoreParams l = scoreParams l' := by
  have h1 := handFlush_congr hp
  have h2 := straightType_congr (hp.map Card.value)
  have hF := valueGroups_forall₂ hp
  have h3 := hF.length_eq
  have h4 := groupLenAt_congr hF
  have h5 := fun keep mult => kickerAdjust_congr hF keep mult
  have h6 := hp.length_eq
  simp only [scoreParams, h1, h2, h3, h4, h5, h6]

theorem scoreHand_congr {l l' : List Card} (hp : l.Perm l') :
    scoreHand l = scoreHand l' := by
  simp only [scoreHand]
  rw [scoreParams_congr hp, handValueCalc_congr hp]

/-! ## Structural lemmas for rank-class analysis (claim C6, part 2) -/

theorem hv_bounds {v : Nat} (h1 : 1 ≤ v) (h13 : v ≤ 13) : 2 ≤ hv v ∧ hv v ≤ 14 := by
  unfold hv
  split_ifs <;> omega

theorem hv_inj {a b : Nat} (h1a : 1 ≤ a) (h13a : a ≤ 13) (h1b : 1 ≤ b)
    (h13b : b ≤ 13) (hab : a ≠ b) : hv a ≠ hv b := by
  unfold hv
  split_ifs <;> omega

theorem cardDistinct_symm : ∀ {a b : Card}, cardDistinct a b → cardDistinct b a := by
  intro a b h
  rcases h with h | h
  · exact Or.inl (Ne.symm h)
  · exact Or.inr (Ne.symm h)

theorem exists_perm_map_eq {w : List Nat} :
    ∀ {l : List Card}, (l.map Card.value).Perm w →
      ∃ l', l.Perm l' ∧ l'.map Card.value = w := by
  induction w with
  | nil =>
    intro l h
    have : l.map Card.value = [] := List.perm_nil.mp h
    have : l = [] := by simpa using this
    exact ⟨[], by simp [this], rfl⟩
  | cons b w' ih =>
    intro l h
    have hb : b ∈ l.map Card.value := h.mem_iff.mpr (List.mem_cons_self _ _)
    obtain ⟨c, hc, hcv⟩ := List.mem_map.mp hb
    have hl : l.Perm (c :: l.erase c) := List.perm_cons_erase hc
    have hmap : (l.map Card.value).Perm (c.value :: (l.erase c).map Card.value) := by
      simpa using hl.map Card.value
    have hcons : (c.value :: (l.erase c).map Card.value).Perm (b :: w') :=
      hmap.symm.trans h
    rw [hcv] at hcons
    obtain ⟨l'', hperm, hmap''⟩ := ih hcons.cons_inv
    exact ⟨c :: l'', hl.trans (hperm.cons c), by simp [hmap'', hcv]⟩

theorem map_value_eq_five {l : List Card} {v1 v2 v3 v4 v5 : Nat}
    (h : l.map Card.value = [v1, v2, v3, v4, v5]) :
    ∃ c1 c2 c3 c4 c5, l = [c1, c2, c3, c4, c5]
      ∧ c1.value = v1 ∧ c2.value = v2 ∧ c3.value = v3
      ∧ c4.value = v4 ∧ c5.value = v5 := by
  rcases l with _ | ⟨c1, _ | ⟨c2, _ | ⟨c3, _ | ⟨c4, _ | ⟨c5, _ | ⟨c6, rest⟩⟩⟩⟩⟩⟩
  · simp at h
  · simp at h
  · simp at h
  · simp at h
  · simp at h
  · simp only [List.map_cons, List.map_nil, List.cons.injEq, and_true] at h
    exact ⟨c1, c2, c3, c4, c5, rfl, h.1, h.2.1, h.2.2.1, h.2.2.2.1, h.2.2.2.2⟩
  · simp at h

theorem canonical5 {l : List Card} {v1 v2 v3 v4 v5 : Nat}
    (h : (l.map Card.value).Perm [v1, v2, v3, v4, v5]) :
    ∃ c1 c2 c3 c4 c5, l.Perm [c1, c2, c3, c4, c5]
      ∧ c1.value = v1 ∧ c2.value = v2 ∧ c3.value = v3
      ∧ c4.value = v4 ∧ c5.value = v5 := by
  obtain ⟨l', hperm, hmap⟩ := exists_perm_map_eq h
  obtain ⟨c1, c2, c3, c4, c5, rfl, h1, h2, h3, h4, h5⟩ := map_value_eq_five hmap
  exact ⟨c1, c2, c3, c4, c5, hperm, h1, h2, h3, h4, h5⟩

theorem pair_perm_cases {x y a b : Nat} (h : ([x, y] : List Nat).Perm [a, b]) :
    (x = a ∧ y = b) ∨ (x = b ∧ y = a) := by
  have hx : x ∈ [a, b] := h.subset (List.mem_cons_self _ _)
  rcases List.mem_cons.mp hx with hxa | hxb
  · subst hxa
    have := h.cons_inv
    have hy : y = b := by simpa using this.subset (List.mem_cons_self _ _)
    exact Or.inl ⟨rfl, hy⟩
  · have hxb' : x = b := by simpa using hxb
    subst hxb'
    have hswap : ([a, x] : List Nat).Perm [x, a] := List.Perm.swap x a []
    have h2 : ([x, y] : List Nat).Perm [x, a] := h.trans hswap
    have hy : y = a := by simpa using h2.cons_inv.subset (List.mem_cons_self _ _)
    exact Or.inr ⟨rfl, hy⟩

theorem mem_valueGroups {h : List Card} {g : List Card} :
    g ∈ valueGroups h ↔
      ∃ v ∈ (h.map Card.value).dedup, g = h.filter (fun c => c.value == v) := by
  unfold valueGroups distinctValuesAsc
  constructor
  · intro hg
    obtain ⟨v, hvm, rfl⟩ := List.mem_map.mp hg
    exact ⟨v, (List.perm_insertionSort _ _).mem_iff.mp hvm, rfl⟩
  · rintro ⟨v, hvm, rfl⟩
    exact List.mem_map_of_mem _ ((List.perm_insertionSort _ _).mem_iff.mpr hvm)

theorem valueGroups_length (h : List Card) :
    (valueGroups h).length = ((h.map Card.value).dedup).length := by
  unfold valueGroups distinctValuesAsc
  rw [List.length_map]
  exact (List.perm_insertionSort _ _).length_eq

theorem kickerAdjust_append (gs : List (List Card)) (g : List Card) (keep mult : Nat) :
    kickerAdjust (gs ++ [g]) keep mult
      = if g.length ≠ keep then
          ((getCardSum g true : Int)) * (mult : Int) * (-1) + ((getCardSum g true : Int))
        else kickerAdjust gs keep mult := by
  unfold kickerAdjust
  rw [List.foldl_append]
  rfl

theorem kickerAdjust_exists {gs : List (List Card)} {keep mult : Nat}
    (hex : ∃ g ∈ gs, g.length ≠ keep) :
    ∃ g ∈ gs, g.length ≠ keep ∧
      kickerAdjust gs keep mult
        = ((getCardSum g true : Int)) * (mult : Int) * (-1) + ((getCardSum g true : Int)) := by
  induction gs using List.reverseRecOn with
  | nil =>
    obtain ⟨g, hg, _⟩ := hex
    cases hg
  | append_singleton gs g ih =>
    rw [kickerAdjust_append]
    by_cases hk : g.length ≠ keep
    · exact ⟨g, List.mem_append_right _ (List.mem_singleton_self g), hk, by rw [if_pos hk]⟩
    · rw [if_neg hk]
      have hex' : ∃ g' ∈ gs, g'.length ≠ keep := by
        obtain ⟨g', hg', hk'⟩ := hex
        rcases List.mem_append.mp hg' with hmem | hmem
        · exact ⟨g', hmem, hk'⟩
        · rw [List.mem_singleton.mp hmem] at hk'
          exact absurd hk' hk
      obtain ⟨g', hg', hk', heq⟩ := ih hex'
      exact ⟨g', List.mem_append_left _ hg', hk', heq⟩

theorem numSuits_beq_one_false {h : List Card} {c1 c2 : Card}
    (h1 : c1 ∈ h) (h2 : c2 ∈ h) (hne : c1.suit ≠ c2.suit) :
    (numSuits h == 1) = false := by
  have m1 : c1.suit ∈ (h.map Card.suit).dedup :=
    List.mem_dedup.mpr (List.mem_map_of_mem _ h1)
  have m2 : c2.suit ∈ (h.map Card.suit).dedup :=
    List.mem_dedup.mpr (List.mem_map_of_mem _ h2)
  have : numSuits h ≠ 1 := by
    intro hone
    unfold numSuits at hone
    obtain ⟨s, hs⟩ := List.length_eq_one.mp hone
    rw [hs] at m1 m2
    simp only [List.mem_singleton] at m1 m2
    exact hne (m1.trans m2.symm)
  simpa using this

theorem handFlush_eq_false_of_ne_suits {h : List Card} {c1 c2 : Card}
    (h1 : c1 ∈ h) (h2 : c2 ∈ h) (hne : c1.suit ≠ c2.suit) :
    handFlush h = false := by
  unfold handFlush
  rw [numSuits_beq_one_false h1 h2 hne]
  rfl

theorem dedup_const {l : List Nat} {s : Nat} (hne : l ≠ [])
    (hall : ∀ x ∈ l, x = s) : l.dedup = [s] := by
  induction l with
  | nil => contradiction
  | cons x rest ih =>
    have hx : x = s := hall x (List.mem_cons_self _ _)
    cases rest with
    | nil => simp [hx]
    | cons y r =>
      have hy : y = s := hall y (by simp)
      have hmem : x ∈ y :: r := by
        rw [hx, hy]
        exact List.mem_cons_self _ _
      rw [List.dedup_cons_of_mem hmem]
      exact ih (by simp) (fun z hz => hall z (List.mem_cons_of_mem _ hz))

theorem handFlush_eq_true_of_flush {h : List Card} (hlen : h.length = 5)
    (hfl : IsFlushHand h) : handFlush h = true := by
  unfold handFlush numSuits
  have hne : h ≠ [] := by
    intro hc
    rw [hc] at hlen
    simp at hlen
  have : (h.map Card.suit).dedup = [(h.headD default).suit] := by
    apply dedup_const
    · simp [List.map_eq_nil_iff, hne]
    · intro x hx
      obtain ⟨c, hc, rfl⟩ := List.mem_map.mp hx
      exact hfl c hc
  rw [this, hlen]
  rfl

theorem exists_two_suits_of_not_flush {h : List Card} (hne : h ≠ [])
    (hnf : ¬ IsFlushHand h) :
    ∃ c1 ∈ h, ∃ c2 ∈ h, c1.suit ≠ c2.suit := by
  unfold IsFlushHand at hnf
  push_neg at hnf
  obtain ⟨c, hc, hcs⟩ := hnf
  refine ⟨c, hc, h.headD default, ?_, hcs⟩
  cases h with
  | nil => contradiction
  | cons x t => exact List.mem_cons_self _ _

theorem handFlush_eq_false_of_not_flush {h : List Card} (hne : h ≠ [])
    (hnf : ¬ IsFlushHand h) : handFlush h = false := by
  obtain ⟨c1, h1, c2, h2, hs⟩ := exists_two_suits_of_not_flush hne hnf
  exact handFlush_eq_false_of_ne_suits h1 h2 hs

theorem scoreHand_fourOfAKind {h : List Card} (hwf : WFHand h)
    (hc : IsFourOfAKind h) :
    80000002 ≤ scoreHand h ∧ scoreHand h ≤ 560000014 := by
  obtain ⟨hlen, hWFc, hdist⟩ := hwf
  obtain ⟨a, -, k, -, hak, hperm⟩ := hc
  obtain ⟨c1, c2, c3, c4, c5, hhp, hv1, hv2, hv3, hv4, hv5⟩ := canonical5 hperm
  rw [scoreHand_congr hhp]
  have hka : k ≠ a := Ne.symm hak
  have hWF' : ∀ c ∈ [c1, c2, c3, c4, c5], WFCard c :=
    fun c hc' => hWFc c (hhp.symm.subset hc')
  obtain ⟨w1a, w1b, w1c, -⟩ := hWF' c1 (by simp)
  obtain ⟨-, -, w2c, -⟩ := hWF' c2 (by simp)
  obtain ⟨-, -, w3c, -⟩ := hWF' c3 (by simp)
  obtain ⟨-, -, w4c, -⟩ := hWF' c4 (by simp)
  obtain ⟨w5a, w5b, w5c, -⟩ := hWF' c5 (by simp)
  have h1a : 1 ≤ a := hv1 ▸ w1a
  have h13a : a ≤ 13 := hv1 ▸ w1b
  have h1k : 1 ≤ k := hv5 ▸ w5a
  have h13k : k ≤ 13 := hv5 ▸ w5b
  have hH1 : c1.highvalue = hv a := by rw [w1c, hv1]
  have hH2 : c2.highvalue = hv a := by rw [w2c, hv2]
  have hH3 : c3.highvalue = hv a := by rw [w3c, hv3]
  have hH4 : c4.highvalue = hv a := by rw [w4c, hv4]
  have hH5 : c5.highvalue = hv k := by rw [w5c, hv5]
  have hd' : ([c1, c2, c3, c4, c5] : List Card).Pairwise cardDistinct :=
    (List.Perm.pairwise_iff (fun {x y} => cardDistinct_symm) hhp).mp hdist
  have d12 : cardDistinct c1 c2 := by
    have := List.pairwise_cons.mp hd'
    exact this.1 c2 (by simp)
  have hsuit12 : c1.suit ≠ c2.suit := by
    rcases d12 with hvne | hsne
    · exact absurd (by rw [hv1, hv2]) hvne
    · exact hsne
  have hfl : handFlush [c1, c2, c3, c4, c5] = false :=
    handFlush_eq_false_of_ne_suits (by simp) (by simp) hsuit12
  have hmap : ([c1, c2, c3, c4, c5] : List Card).map Card.value = [a, a, a, a, k] := by
    simp [hv1, hv2, hv3, hv4, hv5]
  have hst : straightType (([c1, c2, c3, c4, c5] : List Card).map Card.value) = 0 := by
    apply straightType_eq_zero_of_two_le_count (x := a)
    rw [hmap]
    simp [List.count_cons, hak]
  have hded : (([c1, c2, c3, c4, c5] : List Card).map Card.value).dedup = [a, k] := by
    rw [hmap]
    rw [List.dedup_cons_of_mem (by simp), List.dedup_cons_of_mem (by simp),
      List.dedup_cons_of_mem (by simp), List.dedup_cons_of_not_mem (by simp [hak])]
    simp
  have hbka : (k == a) = false := by simp [hka]
  have hbak : (a == k) = false := by simp [hak]
  have hga : ([c1, c2, c3, c4, c5] : List Card).filter (fun c => c.value == a)
      = [c1, c2, c3, c4] := by
    simp [List.filter, hv1, hv2, hv3, hv4, hv5, hbka]
  have hgk : ([c1, c2, c3, c4, c5] : List Card).filter (fun c => c.value == k)
      = [c5] := by
    simp [List.filter, hv1, hv2, hv3, hv4, hv5, hbak]
  have hgchar : ∀ g ∈ valueGroups [c1, c2, c3, c4, c5],
      g = [c1, c2, c3, c4] ∨ g = [c5] := by
    intro g hg
    obtain ⟨v, hvm, rfl⟩ := mem_valueGroups.mp hg
    rw [hded] at hvm
    rcases List.mem_cons.mp hvm with hva | hvk
    · subst hva
      exact Or.inl hga
    · have : v = k := by simpa using hvk
      subst this
      exact Or.inr hgk
  have hgmem_a : ([c1, c2, c3, c4] : List Card) ∈ valueGroups [c1, c2, c3, c4, c5] :=
    mem_valueGroups.mpr ⟨a, by rw [hded]; simp, hga.symm⟩
  have hgmem_k : ([c5] : List Card) ∈ valueGroups [c1, c2, c3, c4, c5] :=
    mem_valueGroups.mpr ⟨k, by rw [hded]; simp, hgk.symm⟩
  have hglen : (valueGroups [c1, c2, c3, c4, c5]).length = 2 := by
    rw [valueGroups_length, hded]
    rfl
  obtain ⟨g0, g1, hgs⟩ := List.length_eq_two.mp hglen
  have hg0 : g0 = [c1, c2, c3, c4] ∨ g0 = [c5] :=
    hgchar g0 (by rw [hgs]; simp)
  have hg1 : g1 = [c1, c2, c3, c4] ∨ g1 = [c5] :=
    hgchar g1 (by rw [hgs]; simp)
  have hsome4 : g0 = [c1, c2, c3, c4] ∨ g1 = [c1, c2, c3, c4] := by
    have := hgmem_a
    rw [hgs] at this
    rcases List.mem_cons.mp this with h0 | h0
    · exact Or.inl h0.symm
    · exact Or.inr (List.mem_singleton.mp h0).symm
  have has4 : (groupLenAt (valueGroups [c1, c2, c3, c4, c5]) 0 == 4
      || groupLenAt (valueGroups [c1, c2, c3, c4, c5]) 1 == 4) = true := by
    rw [hgs]
    rcases hsome4 with h0 | h0 <;> simp [groupLenAt, h0]
  have has3 : (groupLenAt (valueGroups [c1, c2, c3, c4, c5]) 0 == 3
      || groupLenAt (valueGroups [c1, c2, c3, c4, c5]) 1 == 3) = false := by
    rw [hgs]
    rcases hg0 with h0 | h0 <;> rcases hg1 with h1 | h1 <;>
      simp [groupLenAt, h0, h1]
  have hsum_k : getCardSum [c5] true = hv k := by
    simp [getCardSum, hH5]
  have hadj : kickerAdjust (valueGroups [c1, c2, c3, c4, c5]) 4 10000000
      = ((hv k : Int)) * 10000000 * (-1) + ((hv k : Int)) := by
    obtain ⟨g, hgmem, hglen4, heq⟩ := @kickerAdjust_exists
      (valueGroups [c1, c2, c3, c4, c5]) 4 10000000
      ⟨[c5], hgmem_k, by simp⟩
    rcases hgchar g hgmem with h4 | h5
    · rw [h4] at hglen4
      simp at hglen4
    · rw [h5] at heq
      rw [heq, hsum_k]
      push_cast
      ring
  have hsp : scoreParams [c1, c2, c3, c4, c5]
      = (10000000, ((hv k : Int)) * 10000000 * (-1) + ((hv k : Int)), true) := by
    simp [scoreParams, hst, hfl, hglen, has4, has3, hadj]
  have hhv : handValueCalc [c1, c2, c3, c4, c5] 10000000 true
      = ((4 * hv a + hv k : Nat) : Int) := by
    unfold handValueCalc
    rw [if_pos (by norm_num), foldl_add_int]
    simp [hH1, hH2, hH3, hH4, hH5]
    push_cast
    ring
  have hscore : scoreHand [c1, c2, c3, c4, c5]
      = ((4 * hv a + hv k : Nat) : Int) * 10000000
        + (((hv k : Int)) * 10000000 * (-1) + ((hv k : Int))) := by
    simp only [scoreHand, hsp, hhv]
    push_cast
    ring
  rw [hscore]
  obtain ⟨hba1, hba2⟩ := hv_bounds h1a h13a
  obtain ⟨hbk1, hbk2⟩ := hv_bounds h1k h13k
  constructor <;> (push_cast; omega)

theorem sum_map_cast (f : Card → Nat) (h : List Card) :
    (h.map (fun c => (f c : Int))).sum = ((h.map f).sum : Int) := by
  induction h with
  | nil => simp
  | cons c t ih =>
    simp only [List.map_cons, List.sum_cons, ih]
    push_cast
    ring

theorem map_high_eq {h : List Card} (hWFc : ∀ c ∈ h, WFCard c) :
    h.map Card.highvalue = (h.map Card.value).map hv := by
  rw [List.map_map]
  apply List.map_congr_left
  intro c hc
  simpa using (hWFc c hc).2.2.1

theorem handValueCalc_high {h : List Card} {mult : Nat} (hm : 1 < mult)
    (hWFc : ∀ c ∈ h, WFCard c) :
    handValueCalc h mult true = ((((h.map Card.value).map hv).sum : Nat) : Int) := by
  unfold handValueCalc
  rw [if_pos hm, foldl_add_int]
  have hmap : h.map (fun c => if (true : Bool) = true then (c.highvalue : Int) else (c.value : Int))
      = h.map (fun c => (c.highvalue : Int)) := by simp
  rw [hmap, sum_map_cast, map_high_eq hWFc]
  simp

theorem handValueCalc_low {h : List Card} {mult : Nat} (hm : 1 < mult) :
    handValueCalc h mult false = (((h.map Card.value).sum : Nat) : Int) := by
  unfold handValueCalc
  rw [if_pos hm, foldl_add_int]
  have hmap : h.map (fun c => if (false : Bool) = true then (c.highvalue : Int) else (c.value : Int))
      = h.map (fun c => (c.value : Int)) := by simp
  rw [hmap, sum_map_cast]
  simp

theorem sum_high_bounds {h : List Card} (hWFc : ∀ c ∈ h, WFCard c) :
    2 * h.length ≤ (h.map Card.highvalue).sum
      ∧ (h.map Card.highvalue).sum ≤ 14 * h.length := by
  induction h with
  | nil => simp
  | cons c t ih =>
    obtain ⟨w1, w2, w3, -⟩ := hWFc c (List.mem_cons_self _ _)
    obtain ⟨hb1, hb2⟩ := hv_bounds w1 w2
    have iht := ih (fun x hx => hWFc x (List.mem_cons_of_mem _ hx))
    simp only [List.map_cons, List.sum_cons, List.length_cons]
    omega

theorem foldl_max_init_le : ∀ (l : List Card) (n : Nat),
    n ≤ l.foldl (fun m c => max m c.highvalue) n := by
  intro l
  induction l with
  | nil => intro n; simp
  | cons c t ih =>
    intro n
    rw [List.foldl_cons]
    exact le_trans (le_max_left _ _) (ih _)

theorem le_foldl_max_of_mem : ∀ (l : List Card) (n : Nat) (c : Card), c ∈ l →
    c.highvalue ≤ l.foldl (fun m c => max m c.highvalue) n := by
  intro l
  induction l with
  | nil => intro n c hc; cases hc
  | cons x t ih =>
    intro n c hc
    rw [List.foldl_cons]
    rcases List.mem_cons.mp hc with rfl | hmem
    · exact le_trans (le_max_right _ _) (foldl_max_init_le _ _)
    · exact ih _ c hmem

theorem foldl_max_le : ∀ (l : List Card) (n : Nat), n ≤ 14 →
    (∀ c ∈ l, c.highvalue ≤ 14) →
    l.foldl (fun m c => max m c.highvalue) n ≤ 14 := by
  intro l
  induction l with
  | nil => intro n hn _; simpa using hn
  | cons c t ih =>
    intro n hn hall
    rw [List.foldl_cons]
    exact ih _ (max_le hn (hall c (List.mem_cons_self _ _)))
      (fun x hx => hall x (List.mem_cons_of_mem _ hx))

theorem scoreHand_fullHouse {h : List Card} (hwf : WFHand h) (hc : IsFullHouse h) :
    10000000 ≤ scoreHand h ∧ scoreHand h ≤ 70000000 := by
  obtain ⟨hlen, hWFc, hdist⟩ := hwf
  obtain ⟨a, -, b, -, hab, hperm⟩ := hc
  obtain ⟨c1, c2, c3, c4, c5, hhp, hv1, hv2, hv3, hv4, hv5⟩ := canonical5 hperm
  rw [scoreHand_congr hhp]
  have hba : b ≠ a := Ne.symm hab
  have hWF' : ∀ c ∈ [c1, c2, c3, c4, c5], WFCard c :=
    fun c hc' => hWFc c (hhp.symm.subset hc')
  obtain ⟨w1a, w1b, w1c, -⟩ := hWF' c1 (by simp)
  obtain ⟨-, -, w2c, -⟩ := hWF' c2 (by simp)
  obtain ⟨-, -, w3c, -⟩ := hWF' c3 (by simp)
  obtain ⟨w4a, w4b, w4c, -⟩ := hWF' c4 (by simp)
  obtain ⟨-, -, w5c, -⟩ := hWF' c5 (by simp)
  have h1a : 1 ≤ a := hv1 ▸ w1a
  have h13a : a ≤ 13 := hv1 ▸ w1b
  have h1b : 1 ≤ b := hv4 ▸ w4a
  have h13b : b ≤ 13 := hv4 ▸ w4b
  have hH1 : c1.highvalue = hv a := by rw [w1c, hv1]
  have hH2 : c2.highvalue = hv a := by rw [w2c, hv2]
  have hH3 : c3.highvalue = hv a := by rw [w3c, hv3]
  have hH4 : c4.highvalue = hv b := by rw [w4c, hv4]
  have hH5 : c5.highvalue = hv b := by rw [w5c, hv5]
  have hd' : ([c1, c2, c3, c4, c5] : List Card).Pairwise cardDistinct :=
    (List.Perm.pairwise_iff (fun {x y} => cardDistinct_symm) hhp).mp hdist
  have d12 : cardDistinct c1 c2 := (List.pairwise_cons.mp hd').1 c2 (by simp)
  have hsuit12 : c1.suit ≠ c2.suit := by
    rcases d12 with hvne | hsne
    · exact absurd (by rw [hv1, hv2]) hvne
    · exact hsne
  have hfl : handFlush [c1, c2, c3, c4, c5] = false :=
    handFlush_eq_false_of_ne_suits (by simp) (by simp) hsuit12
  have hmap : ([c1, c2, c3, c4, c5] : List Card).map Card.value = [a, a, a, b, b] := by
    simp [hv1, hv2, hv3, hv4, hv5]
  have hst : straightType (([c1, c2, c3, c4, c5] : List Card).map Card.value) = 0 := by
    apply straightType_eq_zero_of_two_le_count (x := a)
    rw [hmap]
    simp [List.count_cons, hab]
  have hded : (([c1, c2, c3, c4, c5] : List Card).map Card.value).dedup = [a, b] := by
    rw [hmap]
    rw [List.dedup_cons_of_mem (by simp), List.dedup_cons_of_mem (by simp),
      List.dedup_cons_of_not_mem (by simp [hab]), List.dedup_cons_of_mem (by simp)]
    simp
  have hbba : (b == a) = false := by simp [hba]
  have hbab : (a == b) = false := by simp [hab]
  have hga : ([c1, c2, c3, c4, c5] : List Card).filter (fun c => c.value == a)
      = [c1, c2, c3] := by
    simp [List.filter, hv1, hv2, hv3, hv4, hv5, hbba]
  have hgb : ([c1, c2, c3, c4, c5] : List Card).filter (fun c => c.value == b)
      = [c4, c5] := by
    simp [List.filter, hv1, hv2, hv3, hv4, hv5, hbab]
  have hgchar : ∀ g ∈ valueGroups [c1, c2, c3, c4, c5],
      g = [c1, c2, c3] ∨ g = [c4, c5] := by
    intro g hg
    obtain ⟨v, hvm, rfl⟩ := mem_valueGroups.mp hg
    rw [hded] at hvm
    rcases List.mem_cons.mp hvm with hva | hvb
    · subst hva
      exact Or.inl hga
    · have : v = b := by simpa using hvb
      subst this
      exact Or.inr hgb
  have hgmem_a : ([c1, c2, c3] : List Card) ∈ valueGroups [c1, c2, c3, c4, c5] :=
    mem_valueGroups.mpr ⟨a, by rw [hded]; simp, hga.symm⟩
  have hglen : (valueGroups [c1, c2, c3, c4, c5]).length = 2 := by
    rw [valueGroups_length, hded]
    rfl
  obtain ⟨g0, g1, hgs⟩ := List.length_eq_two.mp hglen
  have hg0 : g0 = [c1, c2, c3] ∨ g0 = [c4, c5] := hgchar g0 (by rw [hgs]; simp)
  have hg1 : g1 = [c1, c2, c3] ∨ g1 = [c4, c5] := hgchar g1 (by rw [hgs]; simp)
  have hsome3 : g0 = [c1, c2, c3] ∨ g1 = [c1, c2, c3] := by
    have := hgmem_a
    rw [hgs] at this
    rcases List.mem_cons.mp this with h0 | h0
    · exact Or.inl h0.symm
    · exact Or.inr (List.mem_singleton.mp h0).symm
  have has4 : (groupLenAt (valueGroups [c1, c2, c3, c4, c5]) 0 == 4
      || groupLenAt (valueGroups [c1, c2, c3, c4, c5]) 1 == 4) = false := by
    rw [hgs]
    rcases hg0 with h0 | h0 <;> rcases hg1 with h1 | h1 <;>
      simp [groupLenAt, h0, h1]
  have has3 : (groupLenAt (valueGroups [c1, c2, c3, c4, c5]) 0 == 3
      || groupLenAt (valueGroups [c1, c2, c3, c4, c5]) 1 == 3) = true := by
    rw [hgs]
    rcases hsome3 with h0 | h0 <;> simp [groupLenAt, h0]
  have hsp : scoreParams [c1, c2, c3, c4, c5] = (1000000, 0, true) := by
    simp [scoreParams, hst, hfl, hglen, has4, has3]
  have hhv : handValueCalc [c1, c2, c3, c4, c5] 1000000 true
      = ((3 * hv a + 2 * hv b : Nat) : Int) := by
    rw [handValueCalc_high (by norm_num) hWF']
    rw [hmap]
    have : (([a, a, a, b, b] : List Nat).map hv).sum = 3 * hv a + 2 * hv b := by
      simp [List.sum_cons]
      ring
    rw [this]
  have hscore : scoreHand [c1, c2, c3, c4, c5]
      = ((3 * hv a + 2 * hv b : Nat) : Int) * 1000000 := by
    simp only [scoreHand, hsp, hhv]
    push_cast
    ring
  rw [hscore]
  obtain ⟨hba1, hba2⟩ := hv_bounds h1a h13a
  obtain ⟨hbb1, hbb2⟩ := hv_bounds h1b h13b
  constructor <;> (push_cast; omega)

theorem scoreHand_highCard {h : List Card} (hwf : WFHand h) (hc : IsHighCard h) :
    2 ≤ scoreHand h ∧ scoreHand h ≤ 14 := by
  obtain ⟨hlen, hWFc, hdist⟩ := hwf
  obtain ⟨hnodup, hst, hnf⟩ := hc
  have hne : h ≠ [] := by
    intro hc'
    rw [hc'] at hlen
    simp at hlen
  have hfl := handFlush_eq_false_of_not_flush hne hnf
  have hst' : straightType (h.map Card.value) = 0 := hst
  have hnodup' : (h.map Card.value).Nodup := hnodup
  have hded : (h.map Card.value).dedup = h.map Card.value :=
    List.dedup_eq_self.mpr hnodup'
  have hglen : (valueGroups h).length = 5 := by
    rw [valueGroups_length, hded, List.length_map, hlen]
  have hsp : scoreParams h = (1, 0, true) := by
    simp [scoreParams, hst', hfl, hglen]
  have hhv : handValueCalc h 1 true
      = ((h.foldl (fun m c => max m c.highvalue) 0 : Nat) : Int) := by
    unfold handValueCalc
    rw [if_neg (by norm_num)]
  have hscore : scoreHand h
      = ((h.foldl (fun m c => max m c.highvalue) 0 : Nat) : Int) := by
    simp only [scoreHand, hsp, hhv]
    push_cast
    ring
  rw [hscore]
  obtain ⟨c0, t0, hcons⟩ := List.exists_cons_of_ne_nil hne
  obtain ⟨wa, wb, wc, -⟩ := hWFc c0 (by rw [hcons]; exact List.mem_cons_self _ _)
  obtain ⟨hb1, hb2⟩ := hv_bounds wa wb
  have hlb : 2 ≤ h.foldl (fun m c => max m c.highvalue) 0 := by
    have := le_foldl_max_of_mem h 0 c0 (by rw [hcons]; exact List.mem_cons_self _ _)
    omega
  have hub : h.foldl (fun m c => max m c.highvalue) 0 ≤ 14 := by
    apply foldl_max_le h 0 (by norm_num)
    intro c hcm
    obtain ⟨xa, xb, xc, -⟩ := hWFc c hcm
    obtain ⟨-, hx2⟩ := hv_bounds xa xb
    omega
  constructor <;> (push_cast; omega)

theorem scoreHand_flushOnly {h : List Card} (hwf : WFHand h) (hc : IsFlushOnly h) :
    1000000 ≤ scoreHand h ∧ scoreHand h ≤ 7000000 := by
  obtain ⟨hlen, hWFc, hdist⟩ := hwf
  obtain ⟨hfl, hst⟩ := hc
  have hflb := handFlush_eq_true_of_flush hlen hfl
  have hst' : straightType (h.map Card.value) = 0 := hst
  have hpv : h.Pairwise (fun x y : Card => x.value ≠ y.value) := by
    refine List.Pairwise.imp_of_mem ?_ hdist
    intro x y hx hy hd
    rcases hd with hvne | hsne
    · exact hvne
    · exact absurd ((hfl x hx).trans (hfl y hy).symm) hsne
  have hnodup : (h.map Card.value).Nodup := List.pairwise_map.mpr hpv
  have hded : (h.map Card.value).dedup = h.map Card.value :=
    List.dedup_eq_self.mpr hnodup
  have hglen : (valueGroups h).length = 5 := by
    rw [valueGroups_length, hded, List.length_map, hlen]
  have hsp : scoreParams h = (100000, 0, true) := by
    simp [scoreParams, hst', hflb, hglen]
  have hhv : handValueCalc h 100000 true
      = ((((h.map Card.value).map hv).sum : Nat) : Int) :=
    handValueCalc_high (by norm_num) hWFc
  have hscore : scoreHand h
      = ((((h.map Card.value).map hv).sum : Nat) : Int) * 100000 := by
    simp only [scoreHand, hsp, hhv]
    push_cast
    ring
  rw [hscore]
  obtain ⟨hs1, hs2⟩ := sum_high_bounds hWFc
  rw [map_high_eq hWFc, hlen] at hs1 hs2
  constructor <;> omega

theorem scoreHand_threeOfAKind {h : List Card} (hwf : WFHand h)
    (hc : IsThreeOfAKind h) :
    8002 ≤ scoreHand h ∧ scoreHand h ≤ 56014 := by
  obtain ⟨hlen, hWFc, hdist⟩ := hwf
  obtain ⟨a, -, k1, -, k2, -, hak1, hak2, hk12, hperm⟩ := hc
  obtain ⟨c1, c2, c3, c4, c5, hhp, hv1, hv2, hv3, hv4, hv5⟩ := canonical5 hperm
  rw [scoreHand_congr hhp]
  have hWF' : ∀ c ∈ [c1, c2, c3, c4, c5], WFCard c :=
    fun c hc' => hWFc c (hhp.symm.subset hc')
  obtain ⟨w1a, w1b, w1c, -⟩ := hWF' c1 (by simp)
  obtain ⟨-, -, w2c, -⟩ := hWF' c2 (by simp)
  obtain ⟨-, -, w3c, -⟩ := hWF' c3 (by simp)
  obtain ⟨w4a, w4b, w4c, -⟩ := hWF' c4 (by simp)
  obtain ⟨w5a, w5b, w5c, -⟩ := hWF' c5 (by simp)
  have h1a : 1 ≤ a := hv1 ▸ w1a
  have h13a : a ≤ 13 := hv1 ▸ w1b
  have h1k1 : 1 ≤ k1 := hv4 ▸ w4a
  have h13k1 : k1 ≤ 13 := hv4 ▸ w4b
  have h1k2 : 1 ≤ k2 := hv5 ▸ w5a
  have h13k2 : k2 ≤ 13 := hv5 ▸ w5b
  have hH1 : c1.highvalue = hv a := by rw [w1c, hv1]
  have hH2 : c2.highvalue = hv a := by rw [w2c, hv2]
  have hH3 : c3.highvalue = hv a := by rw [w3c, hv3]
  have hH4 : c4.highvalue = hv k1 := by rw [w4c, hv4]
  have hH5 : c5.highvalue = hv k2 := by rw [w5c, hv5]
  have hd' : ([c1, c2, c3, c4, c5] : List Card).Pairwise cardDistinct :=
    (List.Perm.pairwise_iff (fun {x y} => cardDistinct_symm) hhp).mp hdist
  have d12 : cardDistinct c1 c2 := (List.pairwise_cons.mp hd').1 c2 (by simp)
  have hsuit12 : c1.suit ≠ c2.suit := by
    rcases d12 with hvne | hsne
    · exact absurd (by rw [hv1, hv2]) hvne
    · exact hsne
  have hfl : handFlush [c1, c2, c3, c4, c5] = false :=
    handFlush_eq_false_of_ne_suits (by simp) (by simp) hsuit12
  have hmap : ([c1, c2, c3, c4, c5] : List Card).map Card.value = [a, a, a, k1, k2] := by
    simp [hv1, hv2, hv3, hv4, hv5]
  have hst : straightType (([c1, c2, c3, c4, c5] : List Card).map Card.value) = 0 := by
    apply straightType_eq_zero_of_two_le_count (x := a)
    rw [hmap]
    simp [List.count_cons, hak1, hak2]
  have hst2 : straightType [c1.value, c2.value, c3.value, c4.value, c5.value] = 0 := by
    simpa using hst
  have hded : (([c1, c2, c3, c4, c5] : List Card).map Card.value).dedup = [a, k1, k2] := by
    rw [hmap]
    rw [List.dedup_cons_of_mem (by simp), List.dedup_cons_of_mem (by simp),
      List.dedup_cons_of_not_mem (by simp [hak1, hak2]),
      List.dedup_cons_of_not_mem (by simp [hk12])]
    simp
  have hbk1a : (k1 == a) = false := by simp [hak1.symm]
  have hbk2a : (k2 == a) = false := by simp [hak2.symm]
  have hbak1 : (a == k1) = false := by simp [hak1]
  have hbk2k1 : (k2 == k1) = false := by simp [hk12.symm]
  have hbak2 : (a == k2) = false := by simp [hak2]
  have hbk1k2 : (k1 == k2) = false := by simp [hk12]
  have hga : ([c1, c2, c3, c4, c5] : List Card).filter (fun c => c.value == a)
      = [c1, c2, c3] := by
    simp [List.filter, hv1, hv2, hv3, hv4, hv5, hbk1a, hbk2a]
  have hg1 : ([c1, c2, c3, c4, c5] : List Card).filter (fun c => c.value == k1)
      = [c4] := by
    simp [List.filter, hv1, hv2, hv3, hv4, hv5, hbak1, hbk2k1]
  have hg2 : ([c1, c2, c3, c4, c5] : List Card).filter (fun c => c.value == k2)
      = [c5] := by
    simp [List.filter, hv1, hv2, hv3, hv4, hv5, hbak2, hbk1k2]
  have hgchar : ∀ g ∈ valueGroups [c1, c2, c3, c4, c5],
      g = [c1, c2, c3] ∨ g = [c4] ∨ g = [c5] := by
    intro g hg
    obtain ⟨v, hvm, rfl⟩ := mem_valueGroups.mp hg
    rw [hded] at hvm
    rcases List.mem_cons.mp hvm with hva | hvk
    · subst hva
      exact Or.inl hga
    · rcases List.mem_cons.mp hvk with hv1' | hv2'
      · subst hv1'
        exact Or.inr (Or.inl hg1)
      · have : v = k2 := by simpa using hv2'
        subst this
        exact Or.inr (Or.inr hg2)
  have hgmem_a : ([c1, c2, c3] : List Card) ∈ valueGroups [c1, c2, c3, c4, c5] :=
    mem_valueGroups.mpr ⟨a, by rw [hded]; simp, hga.symm⟩
  have hgmem_k1 : ([c4] : List Card) ∈ valueGroups [c1, c2, c3, c4, c5] :=
    mem_valueGroups.mpr ⟨k1, by rw [hded]; simp, hg1.symm⟩
  have hglen : (valueGroups [c1, c2, c3, c4, c5]).length = 3 := by
    rw [valueGroups_length, hded]
    rfl
  obtain ⟨g0, g1, g2, hgs⟩ := List.length_eq_three.mp hglen
  have hsome3 : g0 = [c1, c2, c3] ∨ g1 = [c1, c2, c3] ∨ g2 = [c1, c2, c3] := by
    have := hgmem_a
    rw [hgs] at this
    rcases List.mem_cons.mp this with h0 | h0
    · exact Or.inl h0.symm
    · rcases List.mem_cons.mp h0 with h1 | h1
      · exact Or.inr (Or.inl h1.symm)
      · exact Or.inr (Or.inr (List.mem_singleton.mp h1).symm)
  have has3 : (groupLenAt (valueGroups [c1, c2, c3, c4, c5]) 0 == 3
      || groupLenAt (valueGroups [c1, c2, c3, c4, c5]) 1 == 3
      || groupLenAt (valueGroups [c1, c2, c3, c4, c5]) 2 == 3) = true := by
    rw [hgs]
    rcases hsome3 with h0 | h0 | h0 <;> simp [groupLenAt, h0]
  have hsp : scoreParams [c1, c2, c3, c4, c5]
      = (1000, kickerAdjust (valueGroups [c1, c2, c3, c4, c5]) 3 1000, true) := by
    simp [scoreParams, hst, hst2, hfl, hglen, has3]
  have hsum1 : getCardSum [c4] true = hv k1 := by
    simp [getCardSum, hH4]
  have hsum2 : getCardSum [c5] true = hv k2 := by
    simp [getCardSum, hH5]
  have hhv : handValueCalc [c1, c2, c3, c4, c5] 1000 true
      = ((3 * hv a + hv k1 + hv k2 : Nat) : Int) := by
    unfold handValueCalc
    rw [if_pos (by norm_num), foldl_add_int]
    simp [hH1, hH2, hH3, hH4, hH5]
    push_cast
    ring
  have hadj : kickerAdjust (valueGroups [c1, c2, c3, c4, c5]) 3 1000
        = ((hv k1 : Int)) * 1000 * (-1) + ((hv k1 : Int))
      ∨ kickerAdjust (valueGroups [c1, c2, c3, c4, c5]) 3 1000
        = ((hv k2 : Int)) * 1000 * (-1) + ((hv k2 : Int)) := by
    obtain ⟨g, hgmem, hgl3, heq⟩ := @kickerAdjust_exists
      (valueGroups [c1, c2, c3, c4, c5]) 3 1000
      ⟨[c4], hgmem_k1, by simp⟩
    rcases hgchar g hgmem with h3 | h1' | h1'
    · rw [h3] at hgl3
      simp at hgl3
    · rw [h1'] at heq
      rw [heq, hsum1]
      exact Or.inl rfl
    · rw [h1'] at heq
      rw [heq, hsum2]
      exact Or.inr rfl
  have hscore : scoreHand [c1, c2, c3, c4, c5]
      = ((3 * hv a + hv k1 + hv k2 : Nat) : Int) * 1000
        + kickerAdjust (valueGroups [c1, c2, c3, c4, c5]) 3 1000 := by
    simp only [scoreHand, hsp, hhv]
    push_cast
    ring
  rw [hscore]
  obtain ⟨hba1, hba2⟩ := hv_bounds h1a h13a
  obtain ⟨hbk11, hbk12⟩ := hv_bounds h1k1 h13k1
  obtain ⟨hbk21, hbk22⟩ := hv_bounds h1k2 h13k2
  rcases hadj with ha | ha <;> rw [ha] <;> constructor <;> (push_cast; omega)

theorem scoreHand_twoPair {h : List Card} (hwf : WFHand h)
    (hc : IsTwoPair h) :
    1002 ≤ scoreHand h ∧ scoreHand h ≤ 5414 := by
  obtain ⟨hlen, hWFc, hdist⟩ := hwf
  obtain ⟨a, -, b, -, e, -, hab, hae, hbe, hperm⟩ := hc
  obtain ⟨c1, c2, c3, c4, c5, hhp, hv1, hv2, hv3, hv4, hv5⟩ := canonical5 hperm
  rw [scoreHand_congr hhp]
  have hWF' : ∀ c ∈ [c1, c2, c3, c4, c5], WFCard c :=
    fun c hc' => hWFc c (hhp.symm.subset hc')
  obtain ⟨w1a, w1b, w1c, -⟩ := hWF' c1 (by simp)
  obtain ⟨-, -, w2c, -⟩ := hWF' c2 (by simp)
  obtain ⟨w3a, w3b, w3c, -⟩ := hWF' c3 (by simp)
  obtain ⟨-, -, w4c, -⟩ := hWF' c4 (by simp)
  obtain ⟨w5a, w5b, w5c, -⟩ := hWF' c5 (by simp)
  have h1a : 1 ≤ a := hv1 ▸ w1a
  have h13a : a ≤ 13 := hv1 ▸ w1b
  have h1b : 1 ≤ b := hv3 ▸ w3a
  have h13b : b ≤ 13 := hv3 ▸ w3b
  have h1e : 1 ≤ e := hv5 ▸ w5a
  have h13e : e ≤ 13 := hv5 ▸ w5b
  have hH1 : c1.highvalue = hv a := by rw [w1c, hv1]
  have hH2 : c2.highvalue = hv a := by rw [w2c, hv2]
  have hH3 : c3.highvalue = hv b := by rw [w3c, hv3]
  have hH4 : c4.highvalue = hv b := by rw [w4c, hv4]
  have hH5 : c5.highvalue = hv e := by rw [w5c, hv5]
  have hd' : ([c1, c2, c3, c4, c5] : List Card).Pairwise cardDistinct :=
    (List.Perm.pairwise_iff (fun {x y} => cardDistinct_symm) hhp).mp hdist
  have d12 : cardDistinct c1 c2 := (List.pairwise_cons.mp hd').1 c2 (by simp)
  have hsuit12 : c1.suit ≠ c2.suit := by
    rcases d12 with hvne | hsne
    · exact absurd (by rw [hv1, hv2]) hvne
    · exact hsne
  have hfl : handFlush [c1, c2, c3, c4, c5] = false :=
    handFlush_eq_false_of_ne_suits (by simp) (by simp) hsuit12
  have hmap : ([c1, c2, c3, c4, c5] : List Card).map Card.value = [a, a, b, b, e] := by
    simp [hv1, hv2, hv3, hv4, hv5]
  have hst : straightType (([c1, c2, c3, c4, c5] : List Card).map Card.value) = 0 := by
    apply straightType_eq_zero_of_two_le_count (x := a)
    rw [hmap]
    simp [List.count_cons, hab, hae]
  have hst2 : straightType [c1.value, c2.value, c3.value, c4.value, c5.value] = 0 := by
    simpa using hst
  have hded : (([c1, c2, c3, c4, c5] : List Card).map Card.value).dedup = [a, b, e] := by
    rw [hmap]
    rw [List.dedup_cons_of_mem (by simp),
      List.dedup_cons_of_not_mem (by simp [hab, hae]),
      List.dedup_cons_of_mem (by simp),
      List.dedup_cons_of_not_mem (by simp [hbe])]
    simp
  have hbba : (b == a) = false := by simp [hab.symm]
  have hbea : (e == a) = false := by simp [hae.symm]
  have hbab : (a == b) = false := by simp [hab]
  have hbeb : (e == b) = false := by simp [hbe.symm]
  have hbae : (a == e) = false := by simp [hae]
  have hbbe : (b == e) = false := by simp [hbe]
  have hga : ([c1, c2, c3, c4, c5] : List Card).filter (fun c => c.value == a)
      = [c1, c2] := by
    simp [List.filter, hv1, hv2, hv3, hv4, hv5, hbba, hbea]
  have hgb : ([c1, c2, c3, c4, c5] : List Card).filter (fun c => c.value == b)
      = [c3, c4] := by
    simp [List.filter, hv1, hv2, hv3, hv4, hv5, hbab, hbeb]
  have hge : ([c1, c2, c3, c4, c5] : List Card).filter (fun c => c.value == e)
      = [c5] := by
    simp [List.filter, hv1, hv2, hv3, hv4, hv5, hbae, hbbe]
  have hgchar : ∀ g ∈ valueGroups [c1, c2, c3, c4, c5],
      g = [c1, c2] ∨ g = [c3, c4] ∨ g = [c5] := by
    intro g hg
    obtain ⟨v, hvm, rfl⟩ := mem_valueGroups.mp hg
    rw [hded] at hvm
    rcases List.mem_cons.mp hvm with hva | hvk
    · subst hva
      exact Or.inl hga
    · rcases List.mem_cons.mp hvk with hvb | hve
      · subst hvb
        exact Or.inr (Or.inl hgb)
      · have : v = e := by simpa using hve
        subst this
        exact Or.inr (Or.inr hge)
  have hgmem_e : ([c5] : List Card) ∈ valueGroups [c1, c2, c3, c4, c5] :=
    mem_valueGroups.mpr ⟨e, by rw [hded]; simp, hge.symm⟩
  have hglen : (valueGroups [c1, c2, c3, c4, c5]).length = 3 := by
    rw [valueGroups_length, hded]
    rfl
  obtain ⟨g0, g1, g2, hgs⟩ := List.length_eq_three.mp hglen
  have hg0 := hgchar g0 (by rw [hgs]; simp)
  have hg1' := hgchar g1 (by rw [hgs]; simp)
  have hg2' := hgchar g2 (by rw [hgs]; simp)
  have has3 : (groupLenAt (valueGroups [c1, c2, c3, c4, c5]) 0 == 3
      || groupLenAt (valueGroups [c1, c2, c3, c4, c5]) 1 == 3
      || groupLenAt (valueGroups [c1, c2, c3, c4, c5]) 2 == 3) = false := by
    rw [hgs]
    rcases hg0 with h0 | h0 | h0 <;> rcases hg1' with h1 | h1 | h1 <;>
      rcases hg2' with h2 | h2 | h2 <;> simp [groupLenAt, h0, h1, h2]
  have hsp : scoreParams [c1, c2, c3, c4, c5]
      = (100, kickerAdjust (valueGroups [c1, c2, c3, c4, c5]) 2 100, true) := by
    simp [scoreParams, hst, hst2, hfl, hglen, has3]
  have hsum_e : getCardSum [c5] true = hv e := by
    simp [getCardSum, hH5]
  have hadj : kickerAdjust (valueGroups [c1, c2, c3, c4, c5]) 2 100
      = ((hv e : Int)) * 100 * (-1) + ((hv e : Int)) := by
    obtain ⟨g, hgmem, hgl2, heq⟩ := @kickerAdjust_exists
      (valueGroups [c1, c2, c3, c4, c5]) 2 100
      ⟨[c5], hgmem_e, by simp⟩
    rcases hgchar g hgmem with h2' | h2' | h2'
    · rw [h2'] at hgl2
      simp at hgl2
    · rw [h2'] at hgl2
      simp at hgl2
    · rw [h2'] at heq
      rw [heq, hsum_e]
      push_cast
      ring
  have hhv : handValueCalc [c1, c2, c3, c4, c5] 100 true
      = ((2 * hv a + 2 * hv b + hv e : Nat) : Int) := by
    unfold handValueCalc
    rw [if_pos (by norm_num), foldl_add_int]
    simp [hH1, hH2, hH3, hH4, hH5]
    push_cast
    ring
  have hscore : scoreHand [c1, c2, c3, c4, c5]
      = ((2 * hv a + 2 * hv b + hv e : Nat) : Int) * 100
        + (((hv e : Int)) * 100 * (-1) + ((hv e : Int))) := by
    simp only [scoreHand, hsp, hhv, hadj]
    push_cast
    ring
  rw [hscore]
  obtain ⟨hba1, hba2⟩ := hv_bounds h1a h13a
  obtain ⟨hbb1, hbb2⟩ := hv_bounds h1b h13b
  obtain ⟨hbe1, hbe2⟩ := hv_bounds h1e h13e
  have hvab : hv a ≠ hv b := hv_inj h1a h13a h1b h13b hab
  constructor <;> (push_cast; omega)

theorem scoreHand_onePair {h : List Card} (hwf : WFHand h)
    (hc : IsOnePair h) :
    137 ≤ scoreHand h ∧ scoreHand h ≤ 977 := by
  obtain ⟨hlen, hWFc, hdist⟩ := hwf
  obtain ⟨a, -, k1, -, k2, -, k3, -, hak1, hak2, hak3, hk12, hk13, hk23, hperm⟩ := hc
  obtain ⟨c1, c2, c3, c4, c5, hhp, hv1, hv2, hv3, hv4, hv5⟩ := canonical5 hperm
  rw [scoreHand_congr hhp]
  have hWF' : ∀ c ∈ [c1, c2, c3, c4, c5], WFCard c :=
    fun c hc' => hWFc c (hhp.symm.subset hc')
  obtain ⟨w1a, w1b, w1c, -⟩ := hWF' c1 (by simp)
  obtain ⟨-, -, w2c, -⟩ := hWF' c2 (by simp)
  obtain ⟨w3a, w3b, w3c, -⟩ := hWF' c3 (by simp)
  obtain ⟨w4a, w4b, w4c, -⟩ := hWF' c4 (by simp)
  obtain ⟨w5a, w5b, w5c, -⟩ := hWF' c5 (by simp)
  have h1a : 1 ≤ a := hv1 ▸ w1a
  have h13a : a ≤ 13 := hv1 ▸ w1b
  have h1k1 : 1 ≤ k1 := hv3 ▸ w3a
  have h13k1 : k1 ≤ 13 := hv3 ▸ w3b
  have h1k2 : 1 ≤ k2 := hv4 ▸ w4a
  have h13k2 : k2 ≤ 13 := hv4 ▸ w4b
  have h1k3 : 1 ≤ k3 := hv5 ▸ w5a
  have h13k3 : k3 ≤ 13 := hv5 ▸ w5b
  have hH1 : c1.highvalue = hv a := by rw [w1c, hv1]
  have hH2 : c2.highvalue = hv a := by rw [w2c, hv2]
  have hH3 : c3.highvalue = hv k1 := by rw [w3c, hv3]
  have hH4 : c4.highvalue = hv k2 := by rw [w4c, hv4]
  have hH5 : c5.highvalue = hv k3 := by rw [w5c, hv5]
  have hd' : ([c1, c2, c3, c4, c5] : List Card).Pairwise cardDistinct :=
    (List.Perm.pairwise_iff (fun {x y} => cardDistinct_symm) hhp).mp hdist
  have d12 : cardDistinct c1 c2 := (List.pairwise_cons.mp hd').1 c2 (by simp)
  have hsuit12 : c1.suit ≠ c2.suit := by
    rcases d12 with hvne | hsne
    · exact absurd (by rw [hv1, hv2]) hvne
    · exact hsne
  have hfl : handFlush [c1, c2, c3, c4, c5] = false :=
    handFlush_eq_false_of_ne_suits (by simp) (by simp) hsuit12
  have hmap : ([c1, c2, c3, c4, c5] : List Card).map Card.value = [a, a, k1, k2, k3] := by
    simp [hv1, hv2, hv3, hv4, hv5]
  have hst : straightType (([c1, c2, c3, c4, c5] : List Card).map Card.value) = 0 := by
    apply straightType_eq_zero_of_two_le_count (x := a)
    rw [hmap]
    simp [List.count_cons, hak1, hak2, hak3]
  have hst2 : straightType [c1.value, c2.value, c3.value, c4.value, c5.value] = 0 := by
    simpa using hst
  have hded : (([c1, c2, c3, c4, c5] : List Card).map Card.value).dedup
      = [a, k1, k2, k3] := by
    rw [hmap]
    rw [List.dedup_cons_of_mem (by simp),
      List.dedup_cons_of_not_mem (by simp [hak1, hak2, hak3]),
      List.dedup_cons_of_not_mem (by simp [hk12, hk13]),
      List.dedup_cons_of_not_mem (by simp [hk23])]
    simp
  have hbk1a : (k1 == a) = false := by simp [hak1.symm]
  have hbk2a : (k2 == a) = false := by simp [hak2.symm]
  have hbk3a : (k3 == a) = false := by simp [hak3.symm]
  have hbak1 : (a == k1) = false := by simp [hak1]
  have hbak2 : (a == k2) = false := by simp [hak2]
  have hbak3 : (a == k3) = false := by simp [hak3]
  have hbk2k1 : (k2 == k1) = false := by simp [hk12.symm]
  have hbk3k1 : (k3 == k1) = false := by simp [hk13.symm]
  have hbk1k2 : (k1 == k2) = false := by simp [hk12]
  have hbk3k2 : (k3 == k2) = false := by simp [hk23.symm]
  have hbk1k3 : (k1 == k3) = false := by simp [hk13]
  have hbk2k3 : (k2 == k3) = false := by simp [hk23]
  have hga : ([c1, c2, c3, c4, c5] : List Card).filter (fun c => c.value == a)
      = [c1, c2] := by
    simp [List.filter, hv1, hv2, hv3, hv4, hv5, hbk1a, hbk2a, hbk3a]
  have hg1 : ([c1, c2, c3, c4, c5] : List Card).filter (fun c => c.value == k1)
      = [c3] := by
    simp [List.filter, hv1, hv2, hv3, hv4, hv5, hbak1, hbk2k1, hbk3k1]
  have hg2 : ([c1, c2, c3, c4, c5] : List Card).filter (fun c => c.value == k2)
      = [c4] := by
    simp [List.filter, hv1, hv2, hv3, hv4, hv5, hbak2, hbk1k2, hbk3k2]
  have hg3 : ([c1, c2, c3, c4, c5] : List Card).filter (fun c => c.value == k3)
      = [c5] := by
    simp [List.filter, hv1, hv2, hv3, hv4, hv5, hbak3, hbk1k3, hbk2k3]
  have hgchar : ∀ g ∈ valueGroups [c1, c2, c3, c4, c5],
      g = [c1, c2] ∨ g = [c3] ∨ g = [c4] ∨ g = [c5] := by
    intro g hg
    obtain ⟨v, hvm, rfl⟩ := mem_valueGroups.mp hg
    rw [hded] at hvm
    rcases List.mem_cons.mp hvm with hva | hvk
    · subst hva
      exact Or.inl hga
    · rcases List.mem_cons.mp hvk with hvk1 | hvk'
      · subst hvk1
        exact Or.inr (Or.inl hg1)
      · rcases List.mem_cons.mp hvk' with hvk2 | hvk3
        · subst hvk2
          exact Or.inr (Or.inr (Or.inl hg2))
        · have : v = k3 := by simpa using hvk3
          subst this
          exact Or.inr (Or.inr (Or.inr hg3))
  have hgmem_k1 : ([c3] : List Card) ∈ valueGroups [c1, c2, c3, c4, c5] :=
    mem_valueGroups.mpr ⟨k1, by rw [hded]; simp, hg1.symm⟩
  have hglen : (valueGroups [c1, c2, c3, c4, c5]).length = 4 := by
    rw [valueGroups_length, hded]
    rfl
  have hsp : scoreParams [c1, c2, c3, c4, c5]
      = (15, kickerAdjust (valueGroups [c1, c2, c3, c4, c5]) 2 15, true) := by
    simp [scoreParams, hst, hst2, hfl, hglen]
  have hsum1 : getCardSum [c3] true = hv k1 := by
    simp [getCardSum, hH3]
  have hsum2 : getCardSum [c4] true = hv k2 := by
    simp [getCardSum, hH4]
  have hsum3 : getCardSum [c5] true = hv k3 := by
    simp [getCardSum, hH5]
  have hadj : kickerAdjust (valueGroups [c1, c2, c3, c4, c5]) 2 15
        = ((hv k1 : Int)) * 15 * (-1) + ((hv k1 : Int))
      ∨ kickerAdjust (valueGroups [c1, c2, c3, c4, c5]) 2 15
        = ((hv k2 : Int)) * 15 * (-1) + ((hv k2 : Int))
      ∨ kickerAdjust (valueGroups [c1, c2, c3, c4, c5]) 2 15
        = ((hv k3 : Int)) * 15 * (-1) + ((hv k3 : Int)) := by
    obtain ⟨g, hgmem, hgl2, heq⟩ := @kickerAdjust_exists
      (valueGroups [c1, c2, c3, c4, c5]) 2 15
      ⟨[c3], hgmem_k1, by simp⟩
    rcases hgchar g hgmem with h2' | h1' | h1' | h1'
    · rw [h2'] at hgl2
      simp at hgl2
    · rw [h1'] at heq
      rw [heq, hsum1]
      exact Or.inl rfl
    · rw [h1'] at heq
      rw [heq, hsum2]
      exact Or.inr (Or.inl rfl)
    · rw [h1'] at heq
      rw [heq, hsum3]
      exact Or.inr (Or.inr rfl)
  have hhv : handValueCalc [c1, c2, c3, c4, c5] 15 true
      = ((2 * hv a + hv k1 + hv k2 + hv k3 : Nat) : Int) := by
    unfold handValueCalc
    rw [if_pos (by norm_num), foldl_add_int]
    simp [hH1, hH2, hH3, hH4, hH5]
    push_cast
    ring
  have hscore : scoreHand [c1, c2, c3, c4, c5]
      = ((2 * hv a + hv k1 + hv k2 + hv k3 : Nat) : Int) * 15
        + kickerAdjust (valueGroups [c1, c2, c3, c4, c5]) 2 15 := by
    simp only [scoreHand, hsp, hhv]
    push_cast
    ring
  rw [hscore]
  obtain ⟨hba1, hba2⟩ := hv_bounds h1a h13a
  obtain ⟨hbk11, hbk12⟩ := hv_bounds h1k1 h13k1
  obtain ⟨hbk21, hbk22⟩ := hv_bounds h1k2 h13k2
  obtain ⟨hbk31, hbk32⟩ := hv_bounds h1k3 h13k3
  have hvak1 : hv a ≠ hv k1 := hv_inj h1a h13a h1k1 h13k1 hak1
  have hvak2 : hv a ≠ hv k2 := hv_inj h1a h13a h1k2 h13k2 hak2
  have hvak3 : hv a ≠ hv k3 := hv_inj h1a h13a h1k3 h13k3 hak3
  have hvk12 : hv k1 ≠ hv k2 := hv_inj h1k1 h13k1 h1k2 h13k2 hk12
  have hvk13 : hv k1 ≠ hv k3 := hv_inj h1k1 h13k1 h1k3 h13k3 hk13
  have hvk23 : hv k2 ≠ hv k3 := hv_inj h1k2 h13k2 h1k3 h13k3 hk23
  rcases hadj with ha | ha | ha <;> rw [ha] <;> constructor <;> (push_cast; omega)

theorem scoreHand_straightOnly {h : List Card} (hwf : WFHand h)
    (hc : IsStraightOnly h) :
    150000 ≤ scoreHand h ∧ scoreHand h ≤ 600000 := by
  obtain ⟨hlen, hWFc, hdist⟩ := hwf
  obtain ⟨hnf, hpos⟩ := hc
  have hne : h ≠ [] := by
    intro hc'
    rw [hc'] at hlen
    simp at hlen
  have hfl := handFlush_eq_false_of_not_flush hne hnf
  have hpos' : 0 < straightType (h.map Card.value) := hpos
  rcases straightType_spec (h.map Card.value) with h0 | ⟨hs1, hs9, hperm⟩ | ⟨hs10, hperm⟩
  · omega
  · obtain ⟨s, hsdef, hs1', hs9', hperm'⟩ :
        ∃ s, straightType (h.map Card.value) = s ∧ 1 ≤ s ∧ s ≤ 9 ∧
          (h.map Card.value).Perm [s, s + 1, s + 2, s + 3, s + 4] :=
      ⟨_, rfl, hs1, hs9, hperm⟩
    have wnodup : ([s, s + 1, s + 2, s + 3, s + 4] : List Nat).Nodup := by
      simp [List.nodup_cons, List.mem_cons]
    have hnodup : (h.map Card.value).Nodup := hperm'.nodup_iff.mpr wnodup
    have hded : (h.map Card.value).dedup = h.map Card.value :=
      List.dedup_eq_self.mpr hnodup
    have hglen : (valueGroups h).length = 5 := by
      rw [valueGroups_length, hded, List.length_map, hlen]
    have hs10b : (s == 10) = false := by
      simp [show s ≠ 10 by omega]
    have hpos2 : 0 < s := by omega
    have hsp : scoreParams h = (10000, 0, s != 1) := by
      simp [scoreParams, hsdef, hfl, hglen, hs10b, hpos2]
    by_cases hse : s = 1
    · subst hse
      have hsp' : scoreParams h = (10000, 0, false) := by rw [hsp]; rfl
      have hsum : (h.map Card.value).sum = 15 := by
        rw [hperm'.sum_eq]
        rfl
      have hfin : scoreHand h = ((15 : Nat) : Int) * 10000 + 0 := by
        simp only [scoreHand, hsp',
          handValueCalc_low (show (1 : Nat) < 10000 by norm_num), hsum]
        norm_num
      rw [hfin]
      constructor <;> norm_num
    · have hbne : (s != 1) = true := by simp [hse]
      have hsp' : scoreParams h = (10000, 0, true) := by rw [hsp, hbne]
      have hsum : ((h.map Card.value).map hv).sum = 5 * s + 10 := by
        rw [(hperm'.map hv).sum_eq]
        have e0 : hv s = s := by unfold hv; rw [if_neg (by omega)]
        have e1 : hv (s + 1) = s + 1 := by unfold hv; rw [if_neg (by omega)]
        have e2 : hv (s + 2) = s + 2 := by unfold hv; rw [if_neg (by omega)]
        have e3 : hv (s + 3) = s + 3 := by unfold hv; rw [if_neg (by omega)]
        have e4 : hv (s + 4) = s + 4 := by unfold hv; rw [if_neg (by omega)]
        simp [List.sum_cons, e0, e1, e2, e3, e4]
        omega
      have hfin : scoreHand h = ((5 * s + 10 : Nat) : Int) * 10000 + 0 := by
        simp only [scoreHand, hsp',
          handValueCalc_high (show (1 : Nat) < 10000 by norm_num) hWFc, hsum]
        norm_num
      rw [hfin]
      constructor <;> (push_cast; omega)
  · have wnodup : ([10, 11, 12, 13, 1] : List Nat).Nodup := by decide
    have hnodup : (h.map Card.value).Nodup := hperm.nodup_iff.mpr wnodup
    have hded : (h.map Card.value).dedup = h.map Card.value :=
      List.dedup_eq_self.mpr hnodup
    have hglen : (valueGroups h).length = 5 := by
      rw [valueGroups_length, hded, List.length_map, hlen]
    have hsp : scoreParams h = (10000, 0, true) := by
      simp [scoreParams, hs10, hfl, hglen]
    have hsum : ((h.map Card.value).map hv).sum = 60 := by
      rw [(hperm.map hv).sum_eq]
      rfl
    have hfin : scoreHand h = ((60 : Nat) : Int) * 10000 + 0 := by
      simp only [scoreHand, hsp,
        handValueCalc_high (show (1 : Nat) < 10000 by norm_num) hWFc, hsum]
      norm_num
    rw [hfin]
    constructor <;> norm_num

theorem scoreHand_straightFlush {h : List Card} (hwf : WFHand h)
    (hc : IsStraightFlush h) :
    1500000000 ≤ scoreHand h ∧ scoreHand h ≤ 5500000000 := by
  obtain ⟨hlen, hWFc, hdist⟩ := hwf
  obtain ⟨hfl, s, -, hs1, hs9, hperm⟩ := hc
  have hflb := handFlush_eq_true_of_flush hlen hfl
  have hperm' : (h.map Card.value).Perm [s, s + 1, s + 2, s + 3, s + 4] := hperm
  have hsv : straightType (h.map Card.value) = s :=
    (straightType_congr hperm').trans (straightType_window hs1 hs9)
  have hs10b : (s == 10) = false := by
    simp [show s ≠ 10 by omega]
  have hpos2 : 0 < s := by omega
  have hsp : scoreParams h = (100000000, 0, s != 1) := by
    simp [scoreParams, hsv, hflb, hs10b, hpos2]
  by_cases hse : s = 1
  · subst hse
    have hsp' : scoreParams h = (100000000, 0, false) := by rw [hsp]; rfl
    have hsum : (h.map Card.value).sum = 15 := by
      rw [hperm'.sum_eq]
      rfl
    have hfin : scoreHand h = ((15 : Nat) : Int) * 100000000 + 0 := by
      simp only [scoreHand, hsp',
        handValueCalc_low (show (1 : Nat) < 100000000 by norm_num), hsum]
      norm_num
    rw [hfin]
    constructor <;> norm_num
  · have hbne : (s != 1) = true := by simp [hse]
    have hsp' : scoreParams h = (100000000, 0, true) := by rw [hsp, hbne]
    have hsum : ((h.map Card.value).map hv).sum = 5 * s + 10 := by
      rw [(hperm'.map hv).sum_eq]
      have e0 : hv s = s := by unfold hv; rw [if_neg (by omega)]
      have e1 : hv (s + 1) = s + 1 := by unfold hv; rw [if_neg (by omega)]
      have e2 : hv (s + 2) = s + 2 := by unfold hv; rw [if_neg (by omega)]
      have e3 : hv (s + 3) = s + 3 := by unfold hv; rw [if_neg (by omega)]
      have e4 : hv (s + 4) = s + 4 := by unfold hv; rw [if_neg (by omega)]
      simp [List.sum_cons, e0, e1, e2, e3, e4]
      omega
    have hfin : scoreHand h = ((5 * s + 10 : Nat) : Int) * 100000000 + 0 := by
      simp only [scoreHand, hsp',
        handValueCalc_high (show (1 : Nat) < 100000000 by norm_num) hWFc, hsum]
      norm_num
    rw [hfin]
    constructor <;> (push_cast; omega)

theorem scoreHand_royalFlush {h : List Card} (hwf : WFHand h)
    (hc : IsRoyalFlush h) :
    60000000000 ≤ scoreHand h ∧ scoreHand h ≤ 60000000000 := by
  obtain ⟨hlen, hWFc, hdist⟩ := hwf
  obtain ⟨hfl, hperm⟩ := hc
  have hflb := handFlush_eq_true_of_flush hlen hfl
  have hperm' : (h.map Card.value).Perm [10, 11, 12, 13, 1] := hperm
  have hsv : straightType (h.map Card.value) = 10 :=
    (straightType_congr hperm').trans straightType_ace
  have hsp : scoreParams h = (1000000000, 0, true) := by
    simp [scoreParams, hsv, hflb]
  have hsum : ((h.map Card.value).map hv).sum = 60 := by
    rw [(hperm'.map hv).sum_eq]
    rfl
  have hfin : scoreHand h = ((60 : Nat) : Int) * 1000000000 + 0 := by
    simp only [scoreHand, hsp,
      handValueCalc_high (show (1 : Nat) < 1000000000 by norm_num) hWFc, hsum]
    norm_num
  rw [hfin]
  constructor <;> norm_num

theorem scoreBounds {n : Nat} {h : List Card} (hn : n ≤ 9) (hwf : WFHand h)
    (hc : RankClassPred n h) :
    classLB n ≤ scoreHand h ∧ scoreHand h ≤ classUB n := by
  interval_cases n
  · exact scoreHand_highCard hwf hc
  · exact scoreHand_onePair hwf hc
  · exact scoreHand_twoPair hwf hc
  · exact scoreHand_threeOfAKind hwf hc
  · exact scoreHand_straightOnly hwf hc
  · exact scoreHand_flushOnly hwf hc
  · exact scoreHand_fullHouse hwf hc
  · exact scoreHand_fourOfAKind hwf hc
  · exact scoreHand_straightFlush hwf hc
  · exact scoreHand_royalFlush hwf hc

theorem classChain {i j : Nat} (hij : i < j) (hj : j ≤ 9) : classUB i < classLB j := by
  interval_cases j <;> interval_cases i <;> decide

/-- **C6.** `scoreHand` assigns every 5-card hand a score that is invariant
under permutation of the input array, and scores are strictly monotone across
rank classes: every well-formed hand of a higher-ranked class in the
High Card / One Pair / Two Pair / Three of a Kind / Straight / Flush /
Full House / Four of a Kind / Straight Flush / Royal Flush table scores
strictly greater than every well-formed hand of any lower-ranked class. -/
theorem scoreHand_perm_invariant_and_rank_monotone :
    (∀ h h' : List Card, h.Perm h' → scoreHand h = scoreHand h')
    ∧ (∀ i j : Nat, i < j → j ≤ 9 →
        ∀ h g : List Card, WFHand h → WFHand g →
          RankClassPred i h → RankClassPred j g →
          scoreHand h < scoreHand g) := by
  constructor
  · exact fun h h' hp => scoreHand_congr hp
  · intro i j hij hj9 h g hwh hwg hch hcg
    have hb1 := scoreBounds (le_trans (le_of_lt hij) hj9) hwh hch
    have hb2 := scoreBounds hj9 hwg hcg
    have hlt := classChain hij hj9
    calc scoreHand h ≤ classUB i := hb1.2
      _ < classLB j := hlt
      _ ≤ scoreHand g := hb2.1

/-- Witness for **C6**: a concrete high-card hand (2, 4, 6, 8, 10 of mixed
suits) scores the same after reversing the card order, and scores strictly
below a concrete one-pair hand (2, 2, 4, 6, 8 of mixed suits). -/
theorem scoreHand_perm_invariant_and_rank_monotone_witness :
    scoreHand [⟨0, 0, 2, 2⟩, ⟨0, 1, 4, 4⟩, ⟨0, 2, 6, 6⟩, ⟨0, 3, 8, 8⟩, ⟨0, 0, 10, 10⟩]
      = scoreHand [⟨0, 0, 10, 10⟩, ⟨0, 3, 8, 8⟩, ⟨0, 2, 6, 6⟩, ⟨0, 1, 4, 4⟩, ⟨0, 0, 2, 2⟩]
    ∧ scoreHand [⟨0, 0, 2, 2⟩, ⟨0, 1, 4, 4⟩, ⟨0, 2, 6, 6⟩, ⟨0, 3, 8, 8⟩, ⟨0, 0, 10, 10⟩]
      < scoreHand [⟨0, 0, 2, 2⟩, ⟨0, 1, 2, 2⟩, ⟨0, 2, 4, 4⟩, ⟨0, 3, 6, 6⟩, ⟨0, 0, 8, 8⟩] :=
  ⟨scoreHand_perm_invariant_and_rank_monotone.1 _ _ (by decide),
   scoreHand_perm_invariant_and_rank_monotone.2 0 1 (by decide) (by decide) _ _
     (by decide) (by decide) (by decide) (by decide)⟩

end CypherPokerAnalyzer
